import Mathlib

/-!
# Verification of the cost-basis-tracking ledger

A shallow embedding of the `ledger` Go package (files `lot.go`, `ledger.go`).
Machine floats (`float64`) are modelled as exact rationals `ℚ`; Go `time.Time`
values are modelled as `Int` nanoseconds; Go panics are modelled as `Except`
errors, so a failing operation returns an error value and by construction
leaves no state behind.
-/

namespace CostBasis

/-- Mirrors `Round` in ledger.go: round to the nearest integer
(`math.Ceil(f - 0.5)` for negative `f`, `math.Floor(f + .5)` otherwise). -/
def Round (f : ℚ) : ℚ :=
  if f < 0 then (⌈f - 1/2⌉ : ℤ) else (⌊f + 1/2⌋ : ℤ)

/-- Mirrors `RoundPlaces` in ledger.go: round `f` to `places` decimal places. -/
def RoundPlaces (f : ℚ) (places : ℕ) : ℚ :=
  Round (f * 10 ^ places) / 10 ^ places

/-- Mirrors `LotType` in lot.go. -/
inductive LotType
  | Asset
  | AssetIncome
  | TaxableGains
  deriving DecidableEq

/-- Mirrors `TaxableGainsDetails` in lot.go. -/
structure TaxableGainsDetails where
  account : String
  currency : String
  originalPurchaseTime : Int
  costBasis : ℚ
  dateOfSale : Int
  proceeds : ℚ
  soldAmount : ℚ
  note : String
  deriving DecidableEq

/-- Mirrors `OneYearForCapitalGains` in lot.go: `24 * time.Hour * 365`
in nanoseconds. -/
def OneYearForCapitalGains : Int := 24 * (3600 * 1000000000) * 365

/-- Mirrors `(*TaxableGainsDetails).Gains`. -/
def TaxableGainsDetails.Gains (d : TaxableGainsDetails) : ℚ :=
  d.proceeds - d.costBasis

/-- Mirrors `(*TaxableGainsDetails).IsLongTerm`:
`dateOfSale.Sub(originalPurchaseTime) >= OneYearForCapitalGains`. -/
def TaxableGainsDetails.IsLongTerm (d : TaxableGainsDetails) : Bool :=
  OneYearForCapitalGains ≤ d.dateOfSale - d.originalPurchaseTime

/-- Mirrors `Lot` in lot.go.  The Go `parent *Lot` pointer is modelled as the
index of the parent in the ledger's append-only lot log (`none` for roots). -/
structure Lot where
  parent : Option Nat
  name : String
  lotType : LotType
  account : String
  currency : String
  originalPurchaseTime : Int
  originalPurchaseAmount : ℚ
  originalCostBasis : ℚ
  taxableGainsDetails : Option TaxableGainsDetails
  amount : ℚ
  costBasis : ℚ
  sequenceGenerator : Nat
  deriving DecidableEq

instance : Inhabited Lot :=
  ⟨⟨none, "", .Asset, "", "", 0, 0, 0, none, 0, 0, 0⟩⟩

/-- The failure modes of the ledger; each Go `panic` site is mapped to one. -/
inductive LedgerError
  | lotNotFound (name : String)
  | currencyMismatch
  | insufficientBalance
  | missingPrice
  | invalidSameDayExchange
  | identityMismatch
  | overCommitted
  | underCommitted
  deriving DecidableEq

/-- Mirrors `NewLot` in lot.go. -/
def NewLot (parent : Option Nat) (name : String) (lotType : LotType)
    (purchaseTime : Int) (account currency : String) (amount costBasis : ℚ) : Lot :=
  { parent := parent
    name := name
    lotType := lotType
    account := account
    currency := currency
    originalPurchaseTime := purchaseTime
    originalPurchaseAmount := amount
    originalCostBasis := costBasis
    taxableGainsDetails := none
    amount := amount
    costBasis := costBasis
    sequenceGenerator := 0 }

/-- Mirrors `(*Lot).nameChild`: bump the parent's child counter and derive
the child name `"{parent}.{n}"`.  Returns the name and the updated parent. -/
def Lot.nameChild (lot : Lot) : String × Lot :=
  (lot.name ++ "." ++ toString (lot.sequenceGenerator + 1),
   { lot with sequenceGenerator := lot.sequenceGenerator + 1 })

/-- Mirrors `NewChildLot` in lot.go.  `parentIdx` is the position of the
parent in the ledger's lot log; the updated parent is returned alongside
the child because Go mutates the parent's counter in place. -/
def NewChildLot (parentIdx : Nat) (parent : Lot) (lotType : LotType)
    (purchaseTime : Int) (account currency : String) (amount costBasis : ℚ) :
    Lot × Lot :=
  let nc := parent.nameChild
  (NewLot (some parentIdx) nc.1 lotType purchaseTime account currency amount costBasis,
   nc.2)

/-- Mirrors `(*Lot).Remove` in lot.go. -/
def Lot.Remove (lot : Lot) (currency : String) (amount : ℚ) :
    Except LedgerError (ℚ × Lot) :=
  if lot.currency ≠ currency then .error .currencyMismatch
  else
    let percentageToRemove := amount / lot.amount
    if RoundPlaces percentageToRemove 12 > 1 then .error .insufficientBalance
    else
      let p := if percentageToRemove > 999999999999999 / 1000000000000000 then 1
               else percentageToRemove
      let costBasisToRemove := lot.costBasis * p
      .ok (costBasisToRemove,
           { lot with
             costBasis := lot.costBasis - costBasisToRemove
             amount := lot.amount - lot.amount * p })

/-- The effective removal fraction used by `Lot.Remove`: the raw fraction
`amount / lot.amount`, clamped to exactly `1` when it exceeds
`0.999999999999999`. -/
def effFrac (lot : Lot) (amount : ℚ) : ℚ :=
  if amount / lot.amount > 999999999999999 / 1000000000000000 then 1
  else amount / lot.amount

/-- Mirrors `Ledger` in ledger.go.  The price table is an association list
`currency ↦ (date ↦ unit price)`. -/
structure Ledger where
  localCurrency : String
  historicalPrices : List (String × List (Int × ℚ))
  lots : List Lot
  sequenceGenerator : Nat
  deriving DecidableEq

/-- Association-list lookup used to model Go map indexing. -/
def lookupAssoc {α β : Type} [DecidableEq α] : List (α × β) → α → Option β
  | [], _ => none
  | (k, v) :: rest, key => if k = key then some v else lookupAssoc rest key

/-- Mirrors `New` in ledger.go. -/
def Ledger.New (localCurrency : String)
    (historicalPrices : List (String × List (Int × ℚ))) : Ledger :=
  { localCurrency := localCurrency
    historicalPrices := historicalPrices
    lots := []
    sequenceGenerator := 0 }

/-- Mirrors `(*Ledger).lookupPrice`. -/
def Ledger.lookupPrice (l : Ledger) (currency : String) (date : Int) :
    Except LedgerError ℚ :=
  if currency = l.localCurrency then .ok 1
  else
    match lookupAssoc l.historicalPrices currency with
    | none => .error .missingPrice
    | some prices =>
      match lookupAssoc prices date with
      | none => .error .missingPrice
      | some price => .ok price

/-- The reverse-order search of `(*Ledger).findLotByName`: return the
position and value of the LAST lot in the log bearing the given name
(lot names are reused when a lot is updated, so the most recently created
match wins). -/
def findLotRev : List Lot → String → Option (Nat × Lot)
  | [], _ => none
  | lot :: rest, name =>
    match findLotRev rest name with
    | some (i, found) => some (i + 1, found)
    | none => if lot.name = name then some (0, lot) else none

/-- Mirrors `(*Ledger).findLotByName` (no currency check). -/
def Ledger.findLotIdx (l : Ledger) (name : String) :
    Except LedgerError (Nat × Lot) :=
  match findLotRev l.lots name with
  | none => .error (.lotNotFound name)
  | some r => .ok r

/-- Mirrors `(*Ledger).FindLotByName`: also checks the expected currency. -/
def Ledger.FindLotByName (l : Ledger) (name : String) (currency : String) :
    Except LedgerError (Nat × Lot) :=
  match l.findLotIdx name with
  | .error e => .error e
  | .ok (i, lot) =>
    if lot.currency ≠ currency then .error .currencyMismatch else .ok (i, lot)

/-- Mirrors `(*Ledger).nameLot`: bump the ledger-wide counter and render it. -/
def Ledger.nameLot (l : Ledger) : String × Ledger :=
  (toString (l.sequenceGenerator + 1),
   { l with sequenceGenerator := l.sequenceGenerator + 1 })

/-- Mirrors `(*Ledger).DepositNewMoney`. -/
def Ledger.DepositNewMoney (l : Ledger) (date : Int) (account : String)
    (amountLocalCurrency costBasis : ℚ) : Ledger :=
  let nl := l.nameLot
  { nl.2 with
    lots := nl.2.lots ++
      [NewLot none nl.1 .Asset date account l.localCurrency amountLocalCurrency costBasis] }

/-- Mirrors `(*Ledger).Income` (the note is accepted but recorded nowhere,
as in the source). -/
def Ledger.Income (l : Ledger) (date : Int) (account currency : String)
    (amount cost : ℚ) (_note : String) : Ledger :=
  let nl := l.nameLot
  { nl.2 with
    lots := nl.2.lots ++ [NewLot none nl.1 .AssetIncome date account currency amount cost] }

/-- Mirrors `(*Ledger).Purchase`. -/
def Ledger.Purchase (l : Ledger) (date : Int) (fromLotName : String)
    (toAccount : String) (currency : String) (amount cost : ℚ) :
    Except LedgerError (Lot × Ledger) :=
  match l.FindLotByName fromLotName l.localCurrency with
  | .error e => .error e
  | .ok (i, lot) =>
    match lot.Remove l.localCurrency cost with
    | .error e => .error e
    | .ok (costBasis, lot₁) =>
      let c := NewChildLot i lot₁ .Asset date toAccount currency amount costBasis
      .ok (c.1, { l with lots := (l.lots.set i c.2) ++ [c.1] })

/-- Mirrors `(*Ledger).Spend`.  Returns the local-currency value of the
disposal together with the updated ledger. -/
def Ledger.Spend (l : Ledger) (date : Int) (feeWasFromAccount : String)
    (fromLotName : String) (soldCurrency : String) (soldAmount : ℚ)
    (note : String) : Except LedgerError (ℚ × Ledger) :=
  if soldAmount = 0 then .ok (0, l)
  else
    match l.FindLotByName fromLotName soldCurrency with
    | .error e => .error e
    | .ok (i, lot) =>
      match lot.Remove soldCurrency soldAmount with
      | .error e => .error e
      | .ok (soldCostBasis, lot₁) =>
        let lots₁ := l.lots.set i lot₁
        match l.lookupPrice soldCurrency date with
        | .error e => .error e
        | .ok price =>
          let valueInLocalCurrency := price * soldAmount
          let gains := valueInLocalCurrency - soldCostBasis
          if gains = 0 then .ok (valueInLocalCurrency, { l with lots := lots₁ })
          else
            let scgName := lot.name ++ ".spendCapitalGains"
            let found :=
              match findLotRev lots₁ scgName with
              | some (j, scg) => (j, scg, lots₁)
              | none =>
                let scg := NewLot none scgName .Asset 0 "" lot.currency 0 0
                (lots₁.length, scg, lots₁ ++ [scg])
            let c := NewChildLot found.1 found.2.1 .TaxableGains date "" lot.currency 0 0
            let newLot :=
              { c.1 with
                taxableGainsDetails := some
                  { account := feeWasFromAccount
                    currency := lot.currency
                    originalPurchaseTime := lot.originalPurchaseTime
                    costBasis := soldCostBasis
                    dateOfSale := date
                    proceeds := valueInLocalCurrency
                    soldAmount := soldAmount
                    note := note } }
            .ok (valueInLocalCurrency,
                 { l with lots := (found.2.2.set found.1 c.2) ++ [newLot] })

/-- Mirrors `(*Ledger).Transfer`.  The child lot is created at the source
lot's ORIGINAL purchase time; when a fee is given, the fee amount is then
spent FROM the new lot and the disposal's local-currency value is added to
the new lot's cost basis. -/
def Ledger.Transfer (l : Ledger) (date : Int) (fromLotName : String)
    (currency : String) (amountRemoved feePaidFromAmount : ℚ)
    (toAccount : String) : Except LedgerError (Lot × Ledger) :=
  match l.FindLotByName fromLotName currency with
  | .error e => .error e
  | .ok (i, lot) =>
    match lot.Remove currency amountRemoved with
    | .error e => .error e
    | .ok (costBasis, lot₁) =>
      let c := NewChildLot i lot₁ .Asset lot.originalPurchaseTime toAccount
                 currency amountRemoved costBasis
      let n := l.lots.length
      let l₁ : Ledger := { l with lots := (l.lots.set i c.2) ++ [c.1] }
      match l₁.Spend date lot.account c.1.name currency feePaidFromAmount
              ("fee for transferring from " ++ lot.account ++ " to " ++ toAccount) with
      | .error e => .error e
      | .ok (value, l₂) =>
        let nl := l₂.lots.getD n c.1
        let finalLot := { nl with costBasis := nl.costBasis + value }
        .ok (finalLot, { l₂ with lots := l₂.lots.set n finalLot })

/-- Mirrors `(*Ledger).Fee`: the target lot is located BEFORE the spend, but
(as in Go, where it is a pointer) its post-spend state receives the value. -/
def Ledger.Fee (l : Ledger) (date : Int) (fromLotName : String)
    (currency : String) (amount : ℚ) (applyFeeToCostBasisOfLot : String)
    (note : String) : Except LedgerError Ledger :=
  match l.findLotIdx applyFeeToCostBasisOfLot with
  | .error e => .error e
  | .ok (j, feeAppliedToLot) =>
    match l.Spend date feeAppliedToLot.account fromLotName currency amount
            ("fee applied: " ++ note) with
    | .error e => .error e
    | .ok (value, l₁) =>
      let target := l₁.lots.getD j feeAppliedToLot
      .ok { l₁ with
            lots := l₁.lots.set j { target with costBasis := target.costBasis + value } }

/-- Mirrors `(*Ledger).ExchangeTaxable`.  `feeInSoldCurrency` is accepted but
never used, as in the source. -/
def Ledger.ExchangeTaxable (l : Ledger) (date : Int) (fromLotName : String)
    (soldCurrency : String) (soldAmount _feeInSoldCurrency : ℚ)
    (lookupSoldCurrencyPriceForTaxableGains : Bool)
    (purchasedCurrency : String) (purchasedAmountReceived : ℚ) :
    Except LedgerError (Lot × Ledger) :=
  match l.FindLotByName fromLotName soldCurrency with
  | .error e => .error e
  | .ok (i, lot) =>
    match lot.Remove soldCurrency soldAmount with
    | .error e => .error e
    | .ok (soldCostBasis, lot₁) =>
      match (if lookupSoldCurrencyPriceForTaxableGains
             then Except.map (fun p => p * soldAmount) (l.lookupPrice soldCurrency date)
             else Except.map (fun p => p * purchasedAmountReceived)
                    (l.lookupPrice purchasedCurrency date)) with
      | .error e => .error e
      | .ok purchasedLocalCurrencyEquivalent =>
        let c := NewChildLot i lot₁ .Asset date lot.account purchasedCurrency
                   purchasedAmountReceived purchasedLocalCurrencyEquivalent
        let g := NewChildLot i c.2 .TaxableGains date "" l.localCurrency 0 0
        let gainsLot :=
          { g.1 with
            taxableGainsDetails := some
              { account := lot.account
                currency := lot.currency
                originalPurchaseTime := lot.originalPurchaseTime
                costBasis := soldCostBasis
                dateOfSale := date
                proceeds := purchasedLocalCurrencyEquivalent
                soldAmount := soldAmount
                note := "exchanging " ++ soldCurrency ++ " for " ++ purchasedCurrency } }
        .ok (c.1, { l with lots := (l.lots.set i g.2) ++ [c.1, gainsLot] })

/-- Mirrors `(*Ledger).ExchangeNonTaxable`.  The source panics when the lot's
original purchase time is neither equal to nor after the exchange date, i.e.
exactly when it is strictly BEFORE the date.  `feeInSoldCurrency` is accepted
but never used, as in the source. -/
def Ledger.ExchangeNonTaxable (l : Ledger) (date : Int) (fromLotName : String)
    (soldCurrency : String) (soldAmount _feeInSoldCurrency : ℚ)
    (purchasedCurrency : String) (purchasedAmountReceived : ℚ) :
    Except LedgerError Ledger :=
  match l.FindLotByName fromLotName soldCurrency with
  | .error e => .error e
  | .ok (i, lot) =>
    if ¬ lot.originalPurchaseTime = date ∧ ¬ lot.originalPurchaseTime > date then
      .error .invalidSameDayExchange
    else
      match lot.Remove soldCurrency soldAmount with
      | .error e => .error e
      | .ok (soldCostBasis, lot₁) =>
        let c := NewChildLot i lot₁ .Asset date lot.account purchasedCurrency
                   purchasedAmountReceived soldCostBasis
        .ok { l with lots := (l.lots.set i c.2) ++ [c.1] }

/-- The loop body of `(*Ledger).MergeIdenticalLots`, threading the Go loop
state (`isFirst` stands for the `i == 0` test; `ppu`/`acct` are the price and
account captured from the first lot; `tA`/`tB` are the running totals). -/
def Ledger.mergeLoop (l : Ledger) (purchaseDate : Int) (currency : String) :
    List String → Bool → ℚ → String → ℚ → ℚ →
    Except LedgerError (ℚ × ℚ × String × Ledger)
  | [], _, _, acct, tA, tB => .ok (tA, tB, acct, l)
  | name :: rest, isFirst, ppu, acct, tA, tB =>
    match l.FindLotByName name currency with
    | .error e => .error e
    | .ok (i, lot) =>
      if lot.originalPurchaseTime ≠ purchaseDate then .error .identityMismatch
      else
        let lotPricePerUnit := lot.costBasis / lot.amount
        let ppu' := if isFirst then lotPricePerUnit else ppu
        let acct' := if isFirst then lot.account else acct
        if ¬ isFirst = true ∧ RoundPlaces (ppu - lotPricePerUnit) 11 ≠ 0 then
          .error .identityMismatch
        else if ¬ isFirst = true ∧ acct ≠ lot.account then
          .error .identityMismatch
        else
          match lot.Remove currency lot.amount with
          | .error e => .error e
          | .ok (removed, lot') =>
            Ledger.mergeLoop { l with lots := l.lots.set i lot' } purchaseDate
              currency rest false ppu' acct' (tA + lot.amount) (tB + removed)

/-- Mirrors `(*Ledger).MergeIdenticalLots`. -/
def Ledger.MergeIdenticalLots (l : Ledger) (purchaseDate : Int)
    (currency : String) (lotNames : List String) :
    Except LedgerError (Lot × Ledger) :=
  match l.mergeLoop purchaseDate currency lotNames true 0 "" 0 0 with
  | .error e => .error e
  | .ok (totalAmount, totalCostBasis, account, l₁) =>
    let nl := l₁.nameLot
    let newLot := NewLot none nl.1 .Asset purchaseDate account currency
                    totalAmount totalCostBasis
    .ok (newLot, { nl.2 with lots := nl.2.lots ++ [newLot] })

/-- Mirrors `(*Ledger).TotalInvestment`: sum the immutable original cost
basis of every parentless lot denominated in the reporting currency. -/
def Ledger.TotalInvestment (l : Ledger) : ℚ :=
  l.lots.foldl
    (fun acc lot =>
      if lot.parent = none ∧ lot.currency = l.localCurrency then
        acc + lot.originalCostBasis
      else acc)
    0

deriving instance DecidableEq for Except

def c6d : TaxableGainsDetails :=
  { account := "Coinbase", currency := "BTC", originalPurchaseTime := 0,
    costBasis := 0, dateOfSale := 365 * 24 * 3600 * 1000000000,
    proceeds := 0, soldAmount := 0, note := "" }

def c8lotOld : Lot :=
  { (default : Lot) with name := "a", currency := "BTC", amount := 1 }

def c8lotNew : Lot :=
  { (default : Lot) with name := "a", currency := "BTC", amount := 2 }

def c8L : Ledger :=
  { localCurrency := "USD", historicalPrices := [],
    lots := [c8lotOld, c8lotNew], sequenceGenerator := 2 }

def c2lot : Lot :=
  { (default : Lot) with currency := "BTC", amount := 10 ^ 15, costBasis := 7 }

/-! ## C1 — conservation of per-unit cost basis under `Remove` -/

def c1lot : Lot :=
  { (default : Lot) with currency := "BTC", amount := 10 ^ 16, costBasis := 1 }

def c1wlot : Lot :=
  { (default : Lot) with currency := "X", amount := 2, costBasis := 10 }

def c1wAfter : Lot :=
  { (default : Lot) with currency := "X", amount := 1, costBasis := 5 }

def c3lot : Lot :=
  { (default : Lot) with
    name := "1"
    currency := "BTC"
    originalPurchaseTime := 0
    amount := 2
    costBasis := 10 }

def c3L : Ledger :=
  { localCurrency := "USD", historicalPrices := [],
    lots := [c3lot], sequenceGenerator := 1 }

def c3wlot : Lot :=
  { (default : Lot) with
    name := "1"
    currency := "BTC"
    originalPurchaseTime := 5
    amount := 2
    costBasis := 10 }

def c3wL : Ledger :=
  { localCurrency := "USD", historicalPrices := [],
    lots := [c3wlot], sequenceGenerator := 1 }

def c3wAfter : Lot :=
  { c3wlot with amount := 1, costBasis := 5 }

/-- Number of lots in a log that carry the synthetic spend-gains name derived
from `name`. -/
def scgCount (lots : List Lot) (name : String) : Nat :=
  lots.countP (fun lot => lot.name = name ++ ".spendCapitalGains")

def c7wlot : Lot :=
  { (default : Lot) with
    name := "1"
    currency := "BTC"
    amount := 2
    costBasis := 10 }

def c7wAfter : Lot :=
  { c7wlot with amount := 1, costBasis := 5 }

def c7wL : Ledger :=
  { localCurrency := "USD", historicalPrices := [("BTC", [(7, 5)])],
    lots := [c7wlot], sequenceGenerator := 1 }

def c7wL2 : Ledger :=
  { c7wL with lots := c7wL.lots.set 0 c7wAfter }

/-! ## C4 — `Transfer` -/

/-- Extract the removed-cost-basis component of a `Remove` result. -/
def removedPart (r : Except LedgerError (ℚ × Lot)) : Option ℚ :=
  match r with
  | .ok (q, _) => some q
  | .error _ => none

/-- Extract the returned lot's amount from a ledger-operation result. -/
def resultLotAmount (r : Except LedgerError (Lot × Ledger)) : Option ℚ :=
  match r with
  | .ok (lot, _) => some lot.amount
  | .error _ => none

/-- Extract the returned lot's cost basis from a ledger-operation result. -/
def resultLotBasis (r : Except LedgerError (Lot × Ledger)) : Option ℚ :=
  match r with
  | .ok (lot, _) => some lot.costBasis
  | .error _ => none

def c4lot : Lot :=
  ⟨none, "1", .Asset, "A", "BTC", 3, 1, 100, none, 1, 100, 0⟩

def c4L : Ledger :=
  ⟨"USD", [("BTC", [(5, 100)])], [c4lot], 1⟩

def c4wNew : Lot :=
  ⟨some 0, "1.1", .Asset, "B", "BTC", 3, 1/2, 50, none, 1/2, 50, 0⟩

def c4wL2 : Ledger :=
  ⟨"USD", [("BTC", [(5, 100)])],
   [⟨none, "1", .Asset, "A", "BTC", 3, 1, 100, none, 1/2, 50, 1⟩, c4wNew], 1⟩

/-! ## The multi-lot batch operations -/

/-- The loop of `(*Ledger).TransferMultipleLots`.  The Go panics for a
drained batch ("There's nothing left to remove") and for unreconciled
totals are mapped to `overCommitted`/`underCommitted`. -/
def Ledger.transferMultipleLoop (date : Int) (currency : String)
    (totalAmountToMove feePaidFromAmount : ℚ) (toAccount : String) :
    List String → ℚ → List Lot → Ledger →
    Except LedgerError (List Lot × ℚ × Ledger)
  | [], remaining, acc, l => .ok (acc, remaining, l)
  | name :: rest, remaining, acc, l =>
    match l.FindLotByName name currency with
    | .error e => .error e
    | .ok (_, lot) =>
      if remaining ≤ 0 then .error .overCommitted
      else
        let amountToRemoveFromLot := min lot.amount remaining
        let feePortion :=
          feePaidFromAmount * (amountToRemoveFromLot / totalAmountToMove)
        match l.Transfer date lot.name currency amountToRemoveFromLot
            feePortion toAccount with
        | .error e => .error e
        | .ok (newLot, l') =>
          Ledger.transferMultipleLoop date currency totalAmountToMove
            feePaidFromAmount toAccount rest
            (remaining - amountToRemoveFromLot) (acc ++ [newLot]) l'

/-- Mirrors `(*Ledger).TransferMultipleLots`. -/
def Ledger.TransferMultipleLots (l : Ledger) (date : Int)
    (fromLotNames : List String) (currency : String)
    (totalAmountToMove feePaidFromAmount : ℚ) (toAccount : String) :
    Except LedgerError (List Lot × Ledger) :=
  match Ledger.transferMultipleLoop date currency totalAmountToMove
      feePaidFromAmount toAccount fromLotNames totalAmountToMove [] l with
  | .error e => .error e
  | .ok (newLots, remaining, l') =>
    if remaining > 0 then .error .underCommitted
    else if remaining < 0 then .error .overCommitted
    else .ok (newLots, l')

/-- First phase of `(*Ledger).TransferMultipleLotsFully`: resolve every
name (panicking on failures), keeping position and current value. -/
def Ledger.collectLots (l : Ledger) (currency : String) :
    List String → Except LedgerError (List (Nat × Lot))
  | [] => .ok []
  | n :: rest =>
    match l.FindLotByName n currency with
    | .error e => .error e
    | .ok (i, lot) =>
      match l.collectLots currency rest with
      | .error e => .error e
      | .ok found => .ok ((i, lot) :: found)

/-- Second phase of `(*Ledger).TransferMultipleLotsFully`: transfer each
captured lot fully, reading its CURRENT state through its position (the Go
code reads the lot through a pointer captured before the loop). -/
def Ledger.transferFullyLoop (date : Int) (currency : String)
    (amountRemoved feePaidFromAmount : ℚ) (toAccount : String) :
    List Nat → Ledger → Except LedgerError (List Lot × Ledger)
  | [], l => .ok ([], l)
  | i :: rest, l =>
    let lot := l.lots.getD i default
    let feePortion := feePaidFromAmount * (lot.amount / amountRemoved)
    match l.Transfer date lot.name currency lot.amount feePortion toAccount with
    | .error e => .error e
    | .ok (newLot, l') =>
      match Ledger.transferFullyLoop date currency amountRemoved
          feePaidFromAmount toAccount rest l' with
      | .error e => .error e
      | .ok (newLots, l'') => .ok (newLot :: newLots, l'')

/-- Mirrors `(*Ledger).TransferMultipleLotsFully` (the totals-mismatch panic
is mapped to `overCommitted`). -/
def Ledger.TransferMultipleLotsFully (l : Ledger) (date : Int)
    (fromLotNames : List String) (currency : String)
    (amountRemoved feePaidFromAmount : ℚ) (toAccount : String) :
    Except LedgerError (List Lot × Ledger) :=
  match l.collectLots currency fromLotNames with
  | .error e => .error e
  | .ok found =>
    let lotsTotal := (found.map (fun p => p.2.amount)).sum
    if |lotsTotal - amountRemoved| > 1 / 10 ^ 13 then .error .overCommitted
    else
      Ledger.transferFullyLoop date currency amountRemoved feePaidFromAmount
        toAccount (found.map (fun p => p.1)) l

/-- The loop of `(*Ledger).ExchangeTaxableMultipleLots` ("nothing left to
sell/purchase" panics are mapped to `overCommitted`). -/
def Ledger.exchangeMultipleLoop (date : Int) (soldCurrency : String)
    (totalAmountToSell : ℚ) (lookupSoldCurrencyPriceForTaxableGains : Bool)
    (purchasedCurrency : String) (totalAmountToPurchase : ℚ) :
    List String → ℚ → ℚ → Ledger → Except LedgerError (ℚ × ℚ × Ledger)
  | [], remainingToSell, remainingToPurchase, l =>
    .ok (remainingToSell, remainingToPurchase, l)
  | name :: rest, remainingToSell, remainingToPurchase, l =>
    match l.FindLotByName name soldCurrency with
    | .error e => .error e
    | .ok (_, lot) =>
      if remainingToSell ≤ 0 then .error .overCommitted
      else if remainingToPurchase ≤ 0 then .error .overCommitted
      else
        let amountToSellFromLot := min lot.amount remainingToSell
        let purchasePortion :=
          totalAmountToPurchase * (amountToSellFromLot / totalAmountToSell)
        match l.ExchangeTaxable date lot.name soldCurrency amountToSellFromLot
            0 lookupSoldCurrencyPriceForTaxableGains purchasedCurrency
            purchasePortion with
        | .error e => .error e
        | .ok (_, l') =>
          Ledger.exchangeMultipleLoop date soldCurrency totalAmountToSell
            lookupSoldCurrencyPriceForTaxableGains purchasedCurrency
            totalAmountToPurchase rest
            (remainingToSell - amountToSellFromLot)
            (remainingToPurchase - purchasePortion) l'

/-- Mirrors `(*Ledger).ExchangeTaxableMultipleLots` (the residual-funds
panic is mapped to `underCommitted`). -/
def Ledger.ExchangeTaxableMultipleLots (l : Ledger) (date : Int)
    (fromLotNames : List String) (soldCurrency : String)
    (totalAmountToSell : ℚ) (lookupSoldCurrencyPriceForTaxableGains : Bool)
    (purchasedCurrency : String) (totalAmountToPurchase : ℚ) :
    Except LedgerError Ledger :=
  match Ledger.exchangeMultipleLoop date soldCurrency totalAmountToSell
      lookupSoldCurrencyPriceForTaxableGains purchasedCurrency
      totalAmountToPurchase fromLotNames totalAmountToSell
      totalAmountToPurchase l with
  | .error e => .error e
  | .ok (remainingToSell, remainingToPurchase, l') =>
    if RoundPlaces remainingToSell 11 ≠ 0 ∨
        RoundPlaces remainingToPurchase 11 ≠ 0 then .error .underCommitted
    else .ok l'

/-! ## C10 — `TotalInvestment` accounting -/

/-- The contribution of one lot to `TotalInvestment`: its immutable original
cost basis when it is parentless and in the reporting currency. -/
def contribution (localCurrency : String) (lot : Lot) : ℚ :=
  if lot.parent = none ∧ lot.currency = localCurrency then lot.originalCostBasis
  else 0

/-- Investment total of a lot log. -/
def TIl (localCurrency : String) (lots : List Lot) : ℚ :=
  (lots.map (contribution localCurrency)).sum

/-! ## C5 — `MergeIdenticalLots` -/

/-- The compatibility test applied (explicitly or vacuously) to each lot of
a merge, relative to the per-unit price and account captured from the first
lot: identical original purchase date, per-unit price within 11-decimal
rounding of the reference, identical account. -/
def MergeCond (purchaseDate : Int) (ppu₀ : ℚ) (acct₀ : String)
    (lot : Lot) : Prop :=
  lot.originalPurchaseTime = purchaseDate ∧
  RoundPlaces (ppu₀ - lot.costBasis / lot.amount) 11 = 0 ∧
  acct₀ = lot.account

/-- The cumulative effect of the merge loop's drains on the lot log: each
resolved lot, in order, is replaced in place by its zero-balance residue. -/
def drainAll (lots : List Lot) : List (Nat × Lot) → List Lot
  | [] => lots
  | (i, lot) :: rest =>
    drainAll (lots.set i { lot with costBasis := 0, amount := 0 }) rest

/-- The root lot created by a successful merge: ledger-named, parentless,
dated at the merge's purchase date, on the first lot's account, holding the
exact sums of the resolved lots' amounts and cost bases. -/
def mergedLot (l : Ledger) (purchaseDate : Int) (currency : String)
    (resolved : List (Nat × Lot)) : Lot :=
  NewLot none (toString (l.sequenceGenerator + 1)) .Asset purchaseDate
    resolved.headI.2.account currency
    ((resolved.map (fun p => p.2.amount)).sum)
    ((resolved.map (fun p => p.2.costBasis)).sum)

def c5lotA : Lot :=
  ⟨none, "1", .Asset, "Bitfinex", "BTC", 5, 2, 100, none, 2, 100, 0⟩

def c5lotB : Lot :=
  ⟨none, "2", .Asset, "Bitfinex", "BTC", 5, 4, 200, none, 4, 200, 0⟩

def c5L : Ledger :=
  ⟨"USD", [], [c5lotA, c5lotB], 2⟩

/-! ## Helper lemmas about rounding -/

theorem Round_nonneg_def (q : ℚ) (h0 : 0 ≤ q) : Round q = (⌊q + 1/2⌋ : ℤ) := by
  unfold Round
  rw [if_neg (not_lt.mpr h0)]

theorem Round_eq_of_nonneg (q : ℚ) (n : ℤ) (h0 : 0 ≤ q)
    (h1 : (n : ℚ) ≤ q + 1/2) (h2 : q + 1/2 < (n : ℚ) + 1) : Round q = (n : ℚ) := by
  rw [Round_nonneg_def q h0]
  have : ⌊q + 1/2⌋ = n := Int.floor_eq_iff.mpr ⟨h1, by linarith⟩
  rw [this]

theorem Round_gt (q : ℚ) (h0 : 0 ≤ q) : q - 1/2 < Round q := by
  rw [Round_nonneg_def q h0]
  have := Int.sub_one_lt_floor (q + 1/2)
  linarith

/-- If `RoundPlaces f 12 ≤ 1` for a nonnegative `f`, then
`f < 1 + 1/(2·10^12)`. -/
theorem frac_bound_of_roundPlaces_le (f : ℚ) (h0 : 0 ≤ f)
    (h : RoundPlaces f 12 ≤ 1) : f < 1 + 1 / (2 * 10 ^ 12) := by
  unfold RoundPlaces at h
  have hpow : (0 : ℚ) < 10 ^ 12 := by norm_num
  have hR : Round (f * 10 ^ 12) ≤ 10 ^ 12 := by
    rw [div_le_iff₀ hpow] at h
    simpa using h
  have hgt := Round_gt (f * 10 ^ 12) (by positivity)
  have : f * 10 ^ 12 < 10 ^ 12 + 1/2 := by linarith
  rw [show (1 : ℚ) + 1 / (2 * 10 ^ 12) = (10 ^ 12 + 1/2) / 10 ^ 12 by norm_num]
  rw [lt_div_iff₀ hpow]
  linarith

/-! ## Characterization of `Lot.Remove` -/

theorem Remove_error_currency (lot : Lot) (currency : String) (amount : ℚ)
    (hc : lot.currency ≠ currency) :
    lot.Remove currency amount = .error .currencyMismatch := by
  unfold Lot.Remove
  rw [if_pos hc]

theorem Remove_error_insufficient (lot : Lot) (currency : String) (amount : ℚ)
    (hc : lot.currency = currency)
    (hr : RoundPlaces (amount / lot.amount) 12 > 1) :
    lot.Remove currency amount = .error .insufficientBalance := by
  unfold Lot.Remove
  rw [if_neg (by simp [hc]), if_pos hr]

theorem Remove_ok (lot : Lot) (currency : String) (amount : ℚ)
    (hc : lot.currency = currency)
    (hr : ¬ RoundPlaces (amount / lot.amount) 12 > 1) :
    lot.Remove currency amount =
      .ok (lot.costBasis * effFrac lot amount,
           { lot with
             costBasis := lot.costBasis - lot.costBasis * effFrac lot amount
             amount := lot.amount - lot.amount * effFrac lot amount }) := by
  unfold Lot.Remove effFrac
  rw [if_neg (by simp [hc]), if_neg hr]

/-- Inversion: what a successful `Remove` tells us. -/
theorem Remove_ok_inv (lot : Lot) (currency : String) (amount removed : ℚ)
    (lot' : Lot) (h : lot.Remove currency amount = .ok (removed, lot')) :
    lot.currency = currency ∧ ¬ RoundPlaces (amount / lot.amount) 12 > 1 ∧
    removed = lot.costBasis * effFrac lot amount ∧
    lot' = { lot with
             costBasis := lot.costBasis - lot.costBasis * effFrac lot amount
             amount := lot.amount - lot.amount * effFrac lot amount } := by
  by_cases hc : lot.currency = currency
  · by_cases hr : RoundPlaces (amount / lot.amount) 12 > 1
    · rw [Remove_error_insufficient lot currency amount hc hr] at h
      exact absurd h (by simp)
    · rw [Remove_ok lot currency amount hc hr] at h
      refine ⟨hc, hr, ?_, ?_⟩
      · exact (Prod.mk.injEq .. ▸ (Except.ok.injEq .. ▸ h)).1.symm
      · exact (Prod.mk.injEq .. ▸ (Except.ok.injEq .. ▸ h)).2.symm
  · rw [Remove_error_currency lot currency amount hc] at h
    exact absurd h (by simp)

/-! ## Characterization of the reverse-order lot lookup -/

theorem findLotRev_eq_none_iff (lots : List Lot) (name : String) :
    findLotRev lots name = none ↔ ∀ lot ∈ lots, lot.name ≠ name := by
  induction lots with
  | nil => simp [findLotRev]
  | cons a rest ih =>
    unfold findLotRev
    cases hrec : findLotRev rest name with
    | some r => simp [← ih, hrec]
    | none =>
      by_cases ha : a.name = name
      · simp [ha]
      · simp [ha, ← ih, hrec]

theorem findLotRev_some_spec (lots : List Lot) (name : String) (i : Nat)
    (lot : Lot) (h : findLotRev lots name = some (i, lot)) :
    lots[i]? = some lot ∧ lot.name = name ∧
      ∀ j lot', i < j → lots[j]? = some lot' → lot'.name ≠ name := by
  induction lots generalizing i with
  | nil => simp [findLotRev] at h
  | cons a rest ih =>
    unfold findLotRev at h
    cases hrec : findLotRev rest name with
    | some r =>
      rw [hrec] at h
      obtain ⟨i₀, lot₀⟩ := r
      simp only [Option.some.injEq, Prod.mk.injEq] at h
      obtain ⟨hi, hlot⟩ := h
      obtain ⟨h1, h2, h3⟩ := ih i₀ (by rw [hrec, hlot])
      subst hi
      refine ⟨by simpa using h1, hlot ▸ h2, ?_⟩
      intro j lot' hj hget
      cases j with
      | zero => omega
      | succ j' =>
        exact h3 j' lot' (by omega) (by simpa using hget)
    | none =>
      rw [hrec] at h
      by_cases ha : a.name = name
      · rw [if_pos ha] at h
        simp only [Option.some.injEq, Prod.mk.injEq] at h
        obtain ⟨hi, hlot⟩ := h
        subst hi
        refine ⟨by simp [hlot], hlot ▸ ha, ?_⟩
        intro j lot' hj hget
        cases j with
        | zero => omega
        | succ j' =>
          have := (findLotRev_eq_none_iff rest name).mp hrec
          exact this lot' (by
            have : rest[j']? = some lot' := by simpa using hget
            exact List.getElem?_mem this)
      · rw [if_neg ha] at h
        exact absurd h (by simp)

theorem findLotRev_append_last (lots : List Lot) (x : Lot) (name : String)
    (h : x.name = name) :
    findLotRev (lots ++ [x]) name = some (lots.length, x) := by
  induction lots with
  | nil => simp [findLotRev, h]
  | cons a rest ih => simp [findLotRev, ih]

theorem findLotRev_append_of_ne (lots : List Lot) (x : Lot) (name : String)
    (h : x.name ≠ name) :
    findLotRev (lots ++ [x]) name = findLotRev lots name := by
  induction lots with
  | nil => simp [findLotRev, h]
  | cons a rest ih => simp [findLotRev, ih]

/-- Setting an index whose occupant shares the new element's name does not
disturb the lookup of any OTHER name. -/
theorem findLotRev_set_of_ne (lots : List Lot) (k : Nat) (x : Lot)
    (name : String) (hk : ∀ lot', lots[k]? = some lot' → lot'.name = x.name)
    (hx : x.name ≠ name) :
    findLotRev (lots.set k x) name = findLotRev lots name := by
  induction lots generalizing k with
  | nil => simp
  | cons a rest ih =>
    cases k with
    | zero =>
      have ha : a.name = x.name := hk a (by simp)
      unfold findLotRev
      simp only [List.set_cons_zero]
      cases hrec : findLotRev rest name with
      | some r => rfl
      | none =>
        rw [if_neg hx, if_neg (by rw [ha]; exact hx)]
    | succ k' =>
      unfold findLotRev
      simp only [List.set_cons_succ]
      rw [ih k' (fun lot' hget => hk lot' (by simpa using hget))]

/-- If `f·10^12 + 1/2 < 10^12 + 1` for nonnegative `f`, the 12-place rounding
of `f` is at most `1`. -/
theorem RoundPlaces_le_one_of (f : ℚ) (h0 : 0 ≤ f)
    (h : f * 10 ^ 12 + 1/2 < 10 ^ 12 + 1) : RoundPlaces f 12 ≤ 1 := by
  unfold RoundPlaces
  rw [Round_nonneg_def _ (by positivity)]
  have hfl : ⌊f * 10 ^ 12 + 1/2⌋ < (10 ^ 12 : ℤ) + 1 := by
    rw [Int.floor_lt]
    push_cast
    linarith
  have hle : ⌊f * 10 ^ 12 + 1/2⌋ ≤ (10 ^ 12 : ℤ) := by omega
  rw [div_le_one (by norm_num)]
  exact_mod_cast hle

/-! ## C6 — long-term / short-term classification -/

/-- C6: a `TaxableGainsDetails` record is long-term iff
`saleDate − originalPurchaseDate ≥ 365 × 24 h`; in particular a disposal
exactly 365 days (365 × 24 h) after purchase is long-term, and one 364 days
after purchase is short-term, with no calendar-year dependence. -/
theorem C6_term_threshold (d : TaxableGainsDetails) :
    (d.IsLongTerm = true ↔
      365 * 24 * 3600 * 1000000000 ≤ d.dateOfSale - d.originalPurchaseTime)
    ∧ (d.dateOfSale - d.originalPurchaseTime = 365 * 24 * 3600 * 1000000000 →
        d.IsLongTerm = true)
    ∧ (d.dateOfSale - d.originalPurchaseTime = 364 * 24 * 3600 * 1000000000 →
        d.IsLongTerm = false) := by
  have h : d.IsLongTerm = true ↔
      OneYearForCapitalGains ≤ d.dateOfSale - d.originalPurchaseTime := by
    unfold TaxableGainsDetails.IsLongTerm
    exact decide_eq_true_iff
  unfold OneYearForCapitalGains at h
  refine ⟨by rw [h]; omega, ?_, ?_⟩
  · intro he
    rw [h]
    omega
  · intro he
    rw [Bool.eq_false_iff, Ne, h]
    omega

theorem C6_witness : c6d.IsLongTerm = true :=
  (C6_term_threshold c6d).2.1 (by decide)

/-! ## C9 — the fee argument of the exchanges is never used -/

/-- C9: `ExchangeTaxable` and `ExchangeNonTaxable` produce results
independent of `feeInSoldCurrency`: for any two fee values and otherwise
identical arguments and starting ledger, the outcomes coincide. -/
theorem C9_fee_ignored (l : Ledger) (date : Int)
    (fromLotName soldCurrency : String) (soldAmount fee₁ fee₂ : ℚ)
    (flag : Bool) (purchasedCurrency : String) (purchasedAmountReceived : ℚ) :
    l.ExchangeTaxable date fromLotName soldCurrency soldAmount fee₁ flag
        purchasedCurrency purchasedAmountReceived
      = l.ExchangeTaxable date fromLotName soldCurrency soldAmount fee₂ flag
          purchasedCurrency purchasedAmountReceived
    ∧ l.ExchangeNonTaxable date fromLotName soldCurrency soldAmount fee₁
        purchasedCurrency purchasedAmountReceived
      = l.ExchangeNonTaxable date fromLotName soldCurrency soldAmount fee₂
          purchasedCurrency purchasedAmountReceived :=
  ⟨rfl, rfl⟩

/-! ## C8 — by-name lot lookup -/

/-- C8: the by-name lookup fails with `lotNotFound` when no lot in the log
has the name, fails with `currencyMismatch` when the latest match has the
wrong currency, and on success returns the LATEST (most recently appended)
lot with that name, which has the expected currency: no lot at a later
position carries the same name. -/
theorem C8_find_lot_by_name (l : Ledger) (name currency : String) :
    ((∀ lot ∈ l.lots, lot.name ≠ name) →
       l.FindLotByName name currency = .error (.lotNotFound name))
    ∧ (∀ i lot, findLotRev l.lots name = some (i, lot) →
        lot.currency ≠ currency →
        l.FindLotByName name currency = .error .currencyMismatch)
    ∧ (∀ i lot, l.FindLotByName name currency = .ok (i, lot) →
        l.lots[i]? = some lot ∧ lot.name = name ∧ lot.currency = currency ∧
        ∀ j lot', i < j → l.lots[j]? = some lot' → lot'.name ≠ name) := by
  refine ⟨?_, ?_, ?_⟩
  · intro h
    unfold Ledger.FindLotByName Ledger.findLotIdx
    rw [(findLotRev_eq_none_iff l.lots name).mpr h]
  · intro i lot hfind hc
    unfold Ledger.FindLotByName Ledger.findLotIdx
    rw [hfind]
    simp [hc]
  · intro i lot h
    unfold Ledger.FindLotByName Ledger.findLotIdx at h
    cases hfind : findLotRev l.lots name with
    | none =>
      rw [hfind] at h
      exact absurd h (by simp)
    | some r =>
      obtain ⟨i₀, lot₀⟩ := r
      rw [hfind] at h
      dsimp only at h
      by_cases hc : lot₀.currency ≠ currency
      · rw [if_pos hc] at h
        exact absurd h (by simp)
      · rw [if_neg hc] at h
        simp only [Except.ok.injEq, Prod.mk.injEq] at h
        obtain ⟨hi, hlot⟩ := h
        obtain ⟨h1, h2, h3⟩ := findLotRev_some_spec l.lots name i₀ lot₀ hfind
        rw [← hi, ← hlot]
        exact ⟨h1, h2, not_not.mp hc, h3⟩

theorem C8_witness :
    c8L.lots[1]? = some c8lotNew ∧ c8lotNew.name = "a" ∧
    c8lotNew.currency = "BTC" ∧
    ∀ j lot', 1 < j → c8L.lots[j]? = some lot' → lot'.name ≠ "a" :=
  (C8_find_lot_by_name c8L "a" "BTC").2.2 1 c8lotNew (by decide)

/-! ## C2 — error behavior of `Lot.Remove` -/

/-- C2: `Remove` fails with
`currencyMismatch` iff the currencies differ; otherwise it fails with
`insufficientBalance` iff the fraction rounded to 12 places exceeds 1; and a
fraction within `1e-15` of `1` is clamped to exactly `1`, leaving amount and
cost basis exactly zero.  A failing call returns only the error value, so no
lot or ledger state changes (the Go panic aborts before mutation). -/
theorem C2_remove_errors (lot : Lot) (currency : String) (amount : ℚ) :
    (lot.Remove currency amount = .error .currencyMismatch ↔
      lot.currency ≠ currency)
    ∧ (lot.currency = currency →
        (lot.Remove currency amount = .error .insufficientBalance ↔
          RoundPlaces (amount / lot.amount) 12 > 1))
    ∧ (lot.currency = currency →
        |amount / lot.amount - 1| < 1 / 10 ^ 15 →
        lot.Remove currency amount =
          .ok (lot.costBasis, { lot with amount := 0, costBasis := 0 })) := by
  refine ⟨?_, ?_, ?_⟩
  · constructor
    · intro h hc
      by_cases hr : RoundPlaces (amount / lot.amount) 12 > 1
      · rw [Remove_error_insufficient lot currency amount hc hr] at h
        exact absurd h (by simp)
      · rw [Remove_ok lot currency amount hc hr] at h
        exact absurd h (by simp)
    · exact Remove_error_currency lot currency amount
  · intro hc
    constructor
    · intro h
      by_contra hr
      rw [Remove_ok lot currency amount hc hr] at h
      exact absurd h (by simp)
    · exact Remove_error_insufficient lot currency amount hc
  · intro hc habs
    rw [abs_sub_lt_iff] at habs
    obtain ⟨hlt, hgt⟩ := habs
    have hf1 : amount / lot.amount > 999999999999999 / 1000000000000000 := by
      rw [show (999999999999999 : ℚ) / 1000000000000000 = 1 - 1/10 ^ 15 by norm_num]
      linarith
    have hr : ¬ RoundPlaces (amount / lot.amount) 12 > 1 := by
      refine not_lt.mpr (RoundPlaces_le_one_of _ ?_ ?_)
      · nlinarith
      · nlinarith
    rw [Remove_ok lot currency amount hc hr]
    unfold effFrac
    rw [if_pos hf1]
    norm_num

theorem C2_witness :
    c2lot.Remove "BTC" (10 ^ 15 - 1/2) =
      .ok (c2lot.costBasis, { c2lot with amount := 0, costBasis := 0 }) :=
  (C2_remove_errors c2lot "BTC" (10 ^ 15 - 1/2)).2.2
    rfl (by
      show |(10 ^ 15 - 1/2) / (10 ^ 15 : ℚ) - 1| < 1 / 10 ^ 15
      rw [abs_sub_lt_iff]
      constructor <;> norm_num)

/-- C1 counterexample: with `amountBefore = 10^16` and a removal of
`10^16 − 1`, the raw fraction `1 − 10^-16` lies inside the clamp region, so
`Remove` succeeds and returns the FULL cost basis `1`, strictly more than
`costBasisBefore × (amount / amountBefore)`; the returned value therefore
does not equal the claimed product. -/
theorem C1_counterexample :
    c1lot.Remove "BTC" (10 ^ 16 - 1) =
      .ok (1, { c1lot with amount := 0, costBasis := 0 })
    ∧ c1lot.costBasis * ((10 ^ 16 - 1) / c1lot.amount) < 1 := by
  have hfrac : ((10 : ℚ) ^ 16 - 1) / c1lot.amount = 1 - 1 / 10 ^ 16 := by
    show ((10 : ℚ) ^ 16 - 1) / 10 ^ 16 = 1 - 1 / 10 ^ 16
    norm_num
  have hclamp : ((10 : ℚ) ^ 16 - 1) / c1lot.amount >
      999999999999999 / 1000000000000000 := by
    rw [hfrac]
    norm_num
  have hr : ¬ RoundPlaces (((10 : ℚ) ^ 16 - 1) / c1lot.amount) 12 > 1 := by
    refine not_lt.mpr (RoundPlaces_le_one_of _ ?_ ?_) <;> rw [hfrac] <;> norm_num
  constructor
  · rw [Remove_ok c1lot "BTC" (10 ^ 16 - 1) rfl hr]
    unfold effFrac
    rw [if_pos hclamp]
    norm_num [c1lot]
  · rw [hfrac]
    show (1 : ℚ) * (1 - 1 / 10 ^ 16) < 1
    norm_num

/-- C1 (amended): for a lot with positive current amount and a successful
`Remove`, the removed cost basis is `costBasisBefore × f'` where `f'` is the
fraction `amount / amountBefore` CLAMPED to exactly 1 when it exceeds
`1 − 10^-15` (the claim's unclamped product holds verbatim outside the clamp
region); the remaining amount and cost basis are both scaled by `1 − f'`;
and the per-unit cost basis of the removal matches that of the lot before
the call within `1e-9` relative tolerance, exactly as the claim states. -/
theorem C1_conservation (lot : Lot) (currency : String) (amount removed : ℚ)
    (lot' : Lot) (hpos : 0 < lot.amount)
    (h : lot.Remove currency amount = .ok (removed, lot')) :
    removed = lot.costBasis * effFrac lot amount
    ∧ lot'.amount = lot.amount * (1 - effFrac lot amount)
    ∧ lot'.costBasis = lot.costBasis * (1 - effFrac lot amount)
    ∧ (¬ amount / lot.amount > 999999999999999 / 1000000000000000 →
        removed = lot.costBasis * (amount / lot.amount))
    ∧ (0 < amount →
        |removed / amount - lot.costBasis / lot.amount| ≤
          1 / 10 ^ 9 * |lot.costBasis / lot.amount|) := by
  obtain ⟨hc, hr, hremoved, hlot'⟩ := Remove_ok_inv lot currency amount removed lot' h
  have hA : lot.amount ≠ 0 := ne_of_gt hpos
  refine ⟨hremoved, ?_, ?_, ?_, ?_⟩
  · rw [hlot']
    dsimp only
    ring
  · rw [hlot']
    dsimp only
    ring
  · intro hnc
    rw [hremoved]
    unfold effFrac
    rw [if_neg hnc]
  · intro hamt
    have hamt' : amount ≠ 0 := ne_of_gt hamt
    unfold effFrac at hremoved
    by_cases hcl : amount / lot.amount > 999999999999999 / 1000000000000000
    · -- clamp region: the effective fraction is exactly 1
      rw [if_pos hcl] at hremoved
      rw [mul_one] at hremoved
      subst hremoved
      set f := amount / lot.amount with hf
      have hf1 : 1 - 1 / 10 ^ 15 < f := by
        rw [show (1 : ℚ) - 1 / 10 ^ 15 =
          999999999999999 / 1000000000000000 by norm_num]
        exact hcl
      have hf2 : f < 1 + 1 / (2 * 10 ^ 12) :=
        frac_bound_of_roundPlaces_le f (by positivity) (not_lt.mp hr)
      have hfpos : 0 < f := by linarith
      have hkey : lot.costBasis / amount - lot.costBasis / lot.amount =
          lot.costBasis / lot.amount * ((1 - f) / f) := by
        rw [hf]
        field_simp
        ring
      rw [hkey, abs_mul]
      have habs : |(1 - f) / f| ≤ 1 / 10 ^ 9 := by
        rw [abs_div, abs_of_pos hfpos, div_le_iff₀ hfpos]
        rw [abs_le]
        constructor <;> nlinarith
      calc |lot.costBasis / lot.amount| * |(1 - f) / f|
          ≤ |lot.costBasis / lot.amount| * (1 / 10 ^ 9) :=
            mul_le_mul_of_nonneg_left habs (abs_nonneg _)
        _ = 1 / 10 ^ 9 * |lot.costBasis / lot.amount| := by ring
    · -- no clamp: the per-unit basis is preserved exactly
      rw [if_neg hcl] at hremoved
      subst hremoved
      have : lot.costBasis * (amount / lot.amount) / amount =
          lot.costBasis / lot.amount := by
        field_simp
        ring
      rw [this, sub_self, abs_zero]
      positivity

theorem C1_witness :
    (5 : ℚ) = c1wlot.costBasis * effFrac c1wlot 1
    ∧ c1wAfter.amount = c1wlot.amount * (1 - effFrac c1wlot 1)
    ∧ c1wAfter.costBasis = c1wlot.costBasis * (1 - effFrac c1wlot 1)
    ∧ (¬ (1 : ℚ) / c1wlot.amount > 999999999999999 / 1000000000000000 →
        (5 : ℚ) = c1wlot.costBasis * (1 / c1wlot.amount))
    ∧ ((0 : ℚ) < 1 →
        |(5 : ℚ) / 1 - c1wlot.costBasis / c1wlot.amount| ≤
          1 / 10 ^ 9 * |c1wlot.costBasis / c1wlot.amount|) := by
  have heff : effFrac c1wlot 1 = 1/2 := by
    unfold effFrac
    rw [if_neg (by norm_num [c1wlot])]
    norm_num [c1wlot]
  have h : c1wlot.Remove "X" 1 = .ok (5, c1wAfter) := by
    rw [Remove_ok c1wlot "X" 1 rfl (not_lt.mpr (RoundPlaces_le_one_of _
      (by norm_num [c1wlot]) (by norm_num [c1wlot])))]
    rw [heff]
    show Except.ok (c1wlot.costBasis * (1/2),
      { c1wlot with
        costBasis := c1wlot.costBasis - c1wlot.costBasis * (1/2)
        amount := c1wlot.amount - c1wlot.amount * (1/2) }) = _
    norm_num [c1wlot, c1wAfter]
  exact C1_conservation c1wlot "X" 1 5 c1wAfter (by norm_num [c1wlot]) h

/-! ## C3 — `ExchangeNonTaxable` date guard -/

/-- `Lot.Remove` can only fail with `currencyMismatch` or
`insufficientBalance`. -/
theorem Remove_error_cases (lot : Lot) (currency : String) (amount : ℚ)
    (e : LedgerError) (h : lot.Remove currency amount = .error e) :
    e = .currencyMismatch ∨ e = .insufficientBalance := by
  by_cases hc : lot.currency = currency
  · by_cases hr : RoundPlaces (amount / lot.amount) 12 > 1
    · rw [Remove_error_insufficient lot currency amount hc hr] at h
      right
      exact (Except.error.injEq .. ▸ h).symm
    · rw [Remove_ok lot currency amount hc hr] at h
      exact absurd h (by simp)
  · rw [Remove_error_currency lot currency amount hc] at h
    left
    exact (Except.error.injEq .. ▸ h).symm

/-- C3 counterexample: the claim says an exchange dated ON OR AFTER the
source lot's purchase date succeeds, but on a lot purchased at time 0 an
exchange at time 1 fails with `invalidSameDayExchange`: the code's guard
rejects purchase dates strictly BEFORE the exchange date, the opposite
direction of the claim. -/
theorem C3_counterexample :
    c3lot.originalPurchaseTime ≤ 1
    ∧ c3L.ExchangeNonTaxable 1 "1" "BTC" 1 0 "ETH" 3 =
        .error .invalidSameDayExchange := by
  constructor
  · decide
  · have hfind : c3L.FindLotByName "1" "BTC" = .ok (0, c3lot) := by decide
    unfold Ledger.ExchangeNonTaxable
    rw [hfind]
    dsimp only
    rw [if_pos (by decide)]

/-- C3 (amended): given that the source lot is found with the expected
currency, `ExchangeNonTaxable` fails with `invalidSameDayExchange` exactly
when the lot's original purchase date is strictly BEFORE the exchange date
(not "after", as the claim had it); whenever the purchase date is on or
after the exchange date and the removal succeeds, the operation succeeds,
removes `soldAmount` from the source lot, and appends exactly one
destination child lot — an `Asset` of `purchasedCurrency` with amount
`purchasedAmountReceived` and cost basis equal to the removed cost basis —
and no `TaxableGains` lot. -/
theorem C3_exchange_non_taxable (l : Ledger) (date : Int)
    (fromLotName soldCurrency : String) (soldAmount fee : ℚ)
    (purchasedCurrency : String) (purchasedAmountReceived : ℚ)
    (i : Nat) (lot : Lot)
    (hfind : l.FindLotByName fromLotName soldCurrency = .ok (i, lot)) :
    (l.ExchangeNonTaxable date fromLotName soldCurrency soldAmount fee
        purchasedCurrency purchasedAmountReceived =
          .error .invalidSameDayExchange
      ↔ lot.originalPurchaseTime < date)
    ∧ (date ≤ lot.originalPurchaseTime →
        ∀ removed lot₁, lot.Remove soldCurrency soldAmount = .ok (removed, lot₁) →
          l.ExchangeNonTaxable date fromLotName soldCurrency soldAmount fee
              purchasedCurrency purchasedAmountReceived =
            .ok { l with lots :=
              (l.lots.set i { lot₁ with sequenceGenerator := lot₁.sequenceGenerator + 1 })
              ++ [NewLot (some i)
                    (lot₁.name ++ "." ++ toString (lot₁.sequenceGenerator + 1))
                    .Asset date lot.account purchasedCurrency
                    purchasedAmountReceived removed] }) := by
  have hcond : (¬ lot.originalPurchaseTime = date ∧
      ¬ lot.originalPurchaseTime > date) ↔ lot.originalPurchaseTime < date := by
    omega
  constructor
  · constructor
    · intro h
      unfold Ledger.ExchangeNonTaxable at h
      rw [hfind] at h
      dsimp only at h
      by_cases hd : ¬ lot.originalPurchaseTime = date ∧
          ¬ lot.originalPurchaseTime > date
      · exact hcond.mp hd
      · rw [if_neg hd] at h
        cases hrem : lot.Remove soldCurrency soldAmount with
        | error e =>
          rw [hrem] at h
          dsimp only at h
          have he : e = .invalidSameDayExchange := Except.error.inj h
          rcases Remove_error_cases lot soldCurrency soldAmount e hrem with h1 | h1 <;>
            simp [h1] at he
        | ok r =>
          rw [hrem] at h
          obtain ⟨removed, lot₁⟩ := r
          dsimp only at h
          exact absurd h (by simp)
    · intro h
      unfold Ledger.ExchangeNonTaxable
      rw [hfind]
      dsimp only
      rw [if_pos (hcond.mpr h)]
  · intro hd removed lot₁ hrem
    unfold Ledger.ExchangeNonTaxable
    rw [hfind]
    dsimp only
    rw [if_neg (by omega)]
    rw [hrem]
    rfl

theorem C3_witness :
    c3wL.ExchangeNonTaxable 5 "1" "BTC" 1 0 "ETH" 3 =
      .ok { c3wL with lots :=
        (c3wL.lots.set 0 { c3wAfter with sequenceGenerator := c3wAfter.sequenceGenerator + 1 })
        ++ [NewLot (some 0)
              (c3wAfter.name ++ "." ++ toString (c3wAfter.sequenceGenerator + 1))
              .Asset 5 c3wlot.account "ETH" 3 (5 : ℚ)] } := by
  have heff : effFrac c3wlot 1 = 1/2 := by
    unfold effFrac
    rw [if_neg (by norm_num [c3wlot])]
    norm_num [c3wlot]
  have hrem : c3wlot.Remove "BTC" 1 = .ok (5, c3wAfter) := by
    rw [Remove_ok c3wlot "BTC" 1 rfl (not_lt.mpr (RoundPlaces_le_one_of _
      (by norm_num [c3wlot]) (by norm_num [c3wlot])))]
    rw [heff]
    show Except.ok (c3wlot.costBasis * (1/2),
      { c3wlot with
        costBasis := c3wlot.costBasis - c3wlot.costBasis * (1/2)
        amount := c3wlot.amount - c3wlot.amount * (1/2) }) = _
    norm_num [c3wlot, c3wAfter]
  exact (C3_exchange_non_taxable c3wL 5 "1" "BTC" 1 0 "ETH" 3 0 c3wlot
    (by decide)).2 (by decide) 5 c3wAfter hrem

/-! ## C7 — `Spend` and the synthetic `spendCapitalGains` aggregation lot -/

theorem append_ne_of_len (s t : String) (ht : 0 < t.length) : s ++ t ≠ s := by
  intro h
  have hl := congrArg String.length h
  rw [String.length_append] at hl
  omega

theorem append_dot_ne (s x : String) : s ++ "." ++ x ≠ s := by
  intro h
  have hl := congrArg String.length h
  rw [String.length_append, String.length_append] at hl
  have hdot : ("." : String).length = 1 := rfl
  omega

theorem spendName_ne (s : String) : s ++ ".spendCapitalGains" ≠ s :=
  append_ne_of_len s ".spendCapitalGains" (by decide)

/-- Setting an index whose occupant gets the same predicate value keeps
`countP` unchanged. -/
theorem countP_set_of_same (lots : List Lot) (k : Nat) (x : Lot)
    (p : Lot → Bool) (hk : ∀ lot', lots[k]? = some lot' → p lot' = p x) :
    (lots.set k x).countP p = lots.countP p := by
  induction lots generalizing k with
  | nil => simp
  | cons a rest ih =>
    cases k with
    | zero =>
      have ha : p a = p x := hk a (by simp)
      simp only [List.set_cons_zero, List.countP_cons, ha]
    | succ k' =>
      simp only [List.set_cons_succ, List.countP_cons]
      rw [ih k' (fun lot' hget => hk lot' (by simpa using hget))]

theorem set_append_last (xs : List Lot) (a b : Lot) :
    (xs ++ [a]).set xs.length b = xs ++ [b] := by
  induction xs with
  | nil => simp
  | cons y ys ih => simp [ih]

/-- Inversion for a successful `FindLotByName`. -/
theorem FindLotByName_ok_inv (l : Ledger) (name currency : String) (i : Nat)
    (lot : Lot) (h : l.FindLotByName name currency = .ok (i, lot)) :
    findLotRev l.lots name = some (i, lot) ∧ lot.currency = currency := by
  unfold Ledger.FindLotByName Ledger.findLotIdx at h
  cases hf : findLotRev l.lots name with
  | none =>
    rw [hf] at h
    exact absurd h (by simp)
  | some r =>
    obtain ⟨i₀, lot₀⟩ := r
    rw [hf] at h
    dsimp only at h
    by_cases hc : lot₀.currency ≠ currency
    · rw [if_pos hc] at h
      exact absurd h (by simp)
    · rw [if_neg hc] at h
      simp only [Except.ok.injEq, Prod.mk.injEq] at h
      obtain ⟨hi, hlot⟩ := h
      rw [← hi, ← hlot]
      exact ⟨rfl, not_not.mp hc⟩

theorem countP_singleton_true (p : Lot → Bool) (a : Lot) (h : p a = true) :
    List.countP p [a] = 1 := by
  simp [List.countP_singleton, h]

theorem countP_singleton_false (p : Lot → Bool) (a : Lot) (h : p a = false) :
    List.countP p [a] = 0 := by
  simp [List.countP_singleton, h]

/-- C7: `Spend` returns `0` and leaves the ledger untouched when
`soldAmount = 0`.  Otherwise, when the lot is found, the removal succeeds
and the price is available, `Spend` returns `price × soldAmount`; it
appends NO gains record when `value − removedCostBasis = 0` (the log is
just the source lot updated in place), and otherwise appends exactly one
`TaxableGains` record as a numbered child of the synthetic lot named
`"{lotName}.spendCapitalGains"`, which is created now if absent (the count
of such lots becomes 1) and reused otherwise (the count is unchanged). -/
theorem C7_spend (l : Ledger) (date : Int)
    (feeAcct fromLotName soldCurrency : String) (soldAmount : ℚ)
    (note : String) :
    (soldAmount = 0 →
      l.Spend date feeAcct fromLotName soldCurrency soldAmount note =
        .ok (0, l))
    ∧ (soldAmount ≠ 0 →
      ∀ i lot removed lot₁ price value l',
        l.FindLotByName fromLotName soldCurrency = .ok (i, lot) →
        lot.Remove soldCurrency soldAmount = .ok (removed, lot₁) →
        l.lookupPrice soldCurrency date = .ok price →
        l.Spend date feeAcct fromLotName soldCurrency soldAmount note =
          .ok (value, l') →
        value = price * soldAmount
        ∧ (value - removed = 0 → l'.lots = l.lots.set i lot₁)
        ∧ (value - removed ≠ 0 →
            l'.lots[i]? = some lot₁
            ∧ (∃ rec, l'.lots.getLast? = some rec
                ∧ rec.lotType = .TaxableGains
                ∧ rec.taxableGainsDetails = some
                    { account := feeAcct, currency := lot.currency,
                      originalPurchaseTime := lot.originalPurchaseTime,
                      costBasis := removed, dateOfSale := date,
                      proceeds := value, soldAmount := soldAmount,
                      note := note }
                ∧ ∃ j scg, rec.parent = some j ∧ l'.lots[j]? = some scg
                    ∧ scg.name = fromLotName ++ ".spendCapitalGains"
                    ∧ rec.name = fromLotName ++ ".spendCapitalGains" ++ "." ++
                        toString scg.sequenceGenerator)
            ∧ scgCount l'.lots fromLotName =
                (if scgCount l.lots fromLotName = 0 then 1
                 else scgCount l.lots fromLotName))) := by
  constructor
  · intro h
    unfold Ledger.Spend
    rw [if_pos h]
  · intro hs i lot removed lot₁ price value l' hfind hrem hprice hspend
    obtain ⟨hfl, _hcur⟩ :=
      FindLotByName_ok_inv l fromLotName soldCurrency i lot hfind
    obtain ⟨hgeti, hnamei, _hlater⟩ :=
      findLotRev_some_spec l.lots fromLotName i lot hfl
    have hlen_i : i < l.lots.length := (List.getElem?_eq_some.mp hgeti).1
    have hlot₁eq := (Remove_ok_inv lot soldCurrency soldAmount removed lot₁ hrem).2.2.2
    have hname₁ : lot₁.name = fromLotName := by rw [hlot₁eq]; exact hnamei
    unfold Ledger.Spend at hspend
    rw [if_neg hs, hfind] at hspend
    dsimp only at hspend
    rw [hrem] at hspend
    dsimp only at hspend
    rw [hprice] at hspend
    dsimp only at hspend
    rw [hnamei] at hspend
    set lots₁ := l.lots.set i lot₁ with hlots₁
    have hcount₁ : scgCount lots₁ fromLotName = scgCount l.lots fromLotName := by
      unfold scgCount
      refine countP_set_of_same l.lots i lot₁ _ (fun lot' hget => ?_)
      rw [hgeti] at hget
      have heq : lot = lot' := by simpa using hget
      rw [← heq]
      simp [hnamei, hname₁]
    have hget₁ : lots₁[i]? = some lot₁ := List.getElem?_set_self hlen_i
    have hlen₁ : lots₁.length = l.lots.length := by simp [hlots₁]
    by_cases hg : price * soldAmount - removed = 0
    · rw [if_pos hg] at hspend
      simp only [Except.ok.injEq, Prod.mk.injEq] at hspend
      obtain ⟨hval, hl'⟩ := hspend
      refine ⟨hval.symm, fun _ => by rw [← hl'], fun hne => absurd ?_ hne⟩
      rw [hval.symm]
      exact hg
    · rw [if_neg hg] at hspend
      cases hscg : findLotRev lots₁ (fromLotName ++ ".spendCapitalGains") with
      | some r =>
        obtain ⟨j, scg⟩ := r
        rw [hscg] at hspend
        dsimp only [Lot.nameChild, NewChildLot, NewLot] at hspend
        simp only [Except.ok.injEq, Prod.mk.injEq] at hspend
        obtain ⟨hval, hl'⟩ := hspend
        obtain ⟨hgetj, hnamej, _⟩ := findLotRev_some_spec lots₁
          (fromLotName ++ ".spendCapitalGains") j scg hscg
        have hlen_j : j < lots₁.length := (List.getElem?_eq_some.mp hgetj).1
        have hij : i ≠ j := by
          intro hij
          rw [← hij, hget₁] at hgetj
          have : lot₁ = scg := by simpa using hgetj
          rw [← this, hname₁] at hnamej
          exact spendName_ne fromLotName hnamej.symm
        refine ⟨hval.symm, fun hz => absurd (hval ▸ hz) hg, fun hne => ?_⟩
        refine ⟨?_, ?_, ?_⟩
        · rw [← hl']
          dsimp only
          rw [List.getElem?_append_left (by
              simp only [List.length_set, hlen₁]
              exact hlen_i),
            List.getElem?_set_ne (fun hji => hij hji.symm)]
          exact hget₁
        · rw [← hl', ← hval]
          dsimp only
          refine ⟨_, List.getLast?_concat _, rfl, rfl,
            j, { scg with sequenceGenerator := scg.sequenceGenerator + 1 },
            rfl, ?_, ?_, ?_⟩
          · rw [List.getElem?_append_left (by
                simp only [List.length_set]
                exact hlen_j),
              List.getElem?_set_self hlen_j]
          · exact hnamej
          · show scg.name ++ "." ++ toString (scg.sequenceGenerator + 1) = _
            rw [hnamej]
        · have hposc : 0 < scgCount l.lots fromLotName := by
            rw [← hcount₁]
            exact List.countP_pos_iff.mpr
              ⟨scg, List.getElem?_mem hgetj, by simp [hnamej]⟩
          rw [if_neg (by omega)]
          rw [← hl']
          dsimp only
          unfold scgCount
          rw [List.countP_append]
          rw [countP_set_of_same lots₁ j _ _ (fun lot' hget => by
            rw [hgetj] at hget
            have heq : scg = lot' := by simpa using hget
            rw [← heq])]
          have hc₁ := hcount₁
          unfold scgCount at hc₁
          rw [hc₁]
          rw [countP_singleton_false _ _ (by
            simp only [decide_eq_false_iff_not]
            rw [← hnamej]
            exact append_dot_ne scg.name (toString (scg.sequenceGenerator + 1)))]
          omega
      | none =>
        rw [hscg] at hspend
        dsimp only [Lot.nameChild, NewChildLot, NewLot] at hspend
        rw [set_append_last] at hspend
        simp only [Except.ok.injEq, Prod.mk.injEq] at hspend
        obtain ⟨hval, hl'⟩ := hspend
        have hnone := (findLotRev_eq_none_iff lots₁
          (fromLotName ++ ".spendCapitalGains")).mp hscg
        refine ⟨hval.symm, fun hz => absurd (hval ▸ hz) hg, fun hne => ?_⟩
        refine ⟨?_, ?_, ?_⟩
        · rw [← hl']
          dsimp only
          rw [List.getElem?_append_left (by
              simp only [List.length_append, List.length_singleton]
              omega),
            List.getElem?_append_left (by rw [hlen₁]; exact hlen_i)]
          exact hget₁
        · rw [← hl', ← hval]
          dsimp only
          refine ⟨_, List.getLast?_concat _, rfl, rfl,
            lots₁.length,
            { NewLot none (fromLotName ++ ".spendCapitalGains") .Asset 0 ""
                lot.currency 0 0 with sequenceGenerator := 0 + 1 },
            rfl, ?_, rfl, rfl⟩
          rw [List.getElem?_append_left (by
              simp only [List.length_append, List.length_singleton]
              omega),
            List.getElem?_concat_length]
          rfl
        · have hzero : scgCount l.lots fromLotName = 0 := by
            rw [← hcount₁]
            unfold scgCount
            rw [List.countP_eq_zero]
            intro a ha
            simpa using hnone a ha
          rw [if_pos hzero]
          rw [← hl']
          dsimp only
          unfold scgCount
          rw [List.countP_append, List.countP_append]
          have h1 : List.countP
              (fun lot => decide (lot.name = fromLotName ++ ".spendCapitalGains"))
              lots₁ = 0 := by
            rw [List.countP_eq_zero]
            intro a ha
            simpa using hnone a ha
          rw [h1]
          rw [countP_singleton_true _ _ (by simp),
            countP_singleton_false _ _ (by
              simp only [decide_eq_false_iff_not]
              exact append_dot_ne (fromLotName ++ ".spendCapitalGains")
                (toString (0 + 1)))]

theorem C7_witness : c7wL2.lots = c7wL.lots.set 0 c7wAfter := by
  have heff : effFrac c7wlot 1 = 1/2 := by
    unfold effFrac
    rw [if_neg (by norm_num [c7wlot])]
    norm_num [c7wlot]
  have hrem : c7wlot.Remove "BTC" 1 = .ok (5, c7wAfter) := by
    rw [Remove_ok c7wlot "BTC" 1 rfl (not_lt.mpr (RoundPlaces_le_one_of _
      (by norm_num [c7wlot]) (by norm_num [c7wlot])))]
    rw [heff]
    show Except.ok (c7wlot.costBasis * (1/2),
      { c7wlot with
        costBasis := c7wlot.costBasis - c7wlot.costBasis * (1/2)
        amount := c7wlot.amount - c7wlot.amount * (1/2) }) = _
    norm_num [c7wlot, c7wAfter]
  have hprice : c7wL.lookupPrice "BTC" 7 = .ok 5 := by decide
  have hspend : c7wL.Spend 7 "A" "1" "BTC" 1 "n" = .ok (5, c7wL2) := by
    unfold Ledger.Spend
    rw [if_neg (by norm_num)]
    rw [show c7wL.FindLotByName "1" "BTC" = .ok (0, c7wlot) from by decide]
    dsimp only
    rw [hrem]
    dsimp only
    rw [hprice]
    dsimp only
    rw [if_pos (by norm_num : (5 : ℚ) * 1 - 5 = 0)]
    show Except.ok ((5 : ℚ) * 1, { c7wL with lots := c7wL.lots.set 0 c7wAfter }) = _
    norm_num [c7wL2]
  exact ((C7_spend c7wL 7 "A" "1" "BTC" 1 "n").2 (by norm_num) 0 c7wlot 5
    c7wAfter 5 5 c7wL2 (by decide) hrem hprice hspend).2.1 (by norm_num)

/-- C4 (amended): on a successful `Transfer`, the new child lot keeps the
source lot's ORIGINAL purchase date, its account is `toAccount`, its
currency is `currency`, and its parent is the source lot.  With
`feePaidFromAmount = 0` no disposal happens: the new lot's amount is
`amountRemoved`, its basis is exactly the removed cost basis, and only one
lot is appended.  With `feePaidFromAmount ≠ 0`, the fee is spent FROM the
new lot before the disposal value is added: the lot's final amount is
`amountRemoved − amountRemoved·g` and its final basis is
`removed − removed·g + price·fee`, where `g` is the fee fraction
`fee / amountRemoved` (clamped at the `1 − 1e-15` threshold like every
removal) — NOT `removed + price·fee` as the claim stated. -/
theorem C4_transfer (l : Ledger) (date : Int) (fromLotName currency : String)
    (amountRemoved fee : ℚ) (toAccount : String)
    (i : Nat) (lot : Lot) (removed : ℚ) (lot₁ : Lot) (newLot : Lot)
    (l' : Ledger)
    (hfind : l.FindLotByName fromLotName currency = .ok (i, lot))
    (hrem : lot.Remove currency amountRemoved = .ok (removed, lot₁))
    (h : l.Transfer date fromLotName currency amountRemoved fee toAccount =
      .ok (newLot, l')) :
    newLot.originalPurchaseTime = lot.originalPurchaseTime
    ∧ newLot.account = toAccount
    ∧ newLot.currency = currency
    ∧ newLot.parent = some i
    ∧ (fee = 0 →
        newLot.amount = amountRemoved ∧ newLot.costBasis = removed
        ∧ l'.lots.length = l.lots.length + 1)
    ∧ (fee ≠ 0 → ∀ price, l.lookupPrice currency date = .ok price →
        newLot.amount = amountRemoved - amountRemoved *
          (if fee / amountRemoved > 999999999999999 / 1000000000000000 then 1
           else fee / amountRemoved)
        ∧ newLot.costBasis = (removed - removed *
            (if fee / amountRemoved > 999999999999999 / 1000000000000000 then 1
             else fee / amountRemoved)) + price * fee) := by
  unfold Ledger.Transfer at h
  rw [hfind] at h
  dsimp only at h
  rw [hrem] at h
  dsimp only [NewChildLot, Lot.nameChild, NewLot] at h
  set childName := lot₁.name ++ "." ++ toString (lot₁.sequenceGenerator + 1)
    with hchildName
  set c1 : Lot :=
    { parent := some i, name := childName, lotType := .Asset,
      account := toAccount, currency := currency,
      originalPurchaseTime := lot.originalPurchaseTime,
      originalPurchaseAmount := amountRemoved, originalCostBasis := removed,
      taxableGainsDetails := none, amount := amountRemoved,
      costBasis := removed, sequenceGenerator := 0 } with hc1
  set lot₂ : Lot := { lot₁ with sequenceGenerator := lot₁.sequenceGenerator + 1 }
    with hlot₂
  set l₁ : Ledger := { l with lots := (l.lots.set i lot₂) ++ [c1] } with hl₁
  have hfind₂ : l₁.FindLotByName childName currency =
      .ok ((l.lots.set i lot₂).length, c1) := by
    unfold Ledger.FindLotByName Ledger.findLotIdx
    rw [show l₁.lots = (l.lots.set i lot₂) ++ [c1] from rfl]
    rw [findLotRev_append_last _ _ _ rfl]
    dsimp only
    rw [if_neg (fun hne => hne rfl)]
  have hsetlen : (l.lots.set i lot₂).length = l.lots.length := by simp
  by_cases hfee : fee = 0
  · rw [hfee] at h
    unfold Ledger.Spend at h
    rw [if_pos rfl] at h
    dsimp only at h
    rw [← hsetlen, List.getD_eq_getElem?_getD, List.getElem?_concat_length] at h
    dsimp only [Option.getD_some] at h
    simp only [Except.ok.injEq, Prod.mk.injEq] at h
    obtain ⟨hnew, hl'⟩ := h
    rw [← hnew]
    refine ⟨rfl, rfl, rfl, rfl, fun _ => ⟨rfl, by dsimp only; rw [add_zero],
      ?_⟩, fun hne => absurd hfee hne⟩
    rw [← hl']
    simp
  · -- fee ≠ 0: the Spend path
    cases hspend : l₁.Spend date lot.account c1.name currency fee
        ("fee for transferring from " ++ lot.account ++ " to " ++ toAccount) with
    | error e =>
      rw [hspend] at h
      exact absurd h (by simp)
    | ok vl =>
      obtain ⟨value, l₂⟩ := vl
      rw [hspend] at h
      dsimp only at h
      -- characterize the Spend
      unfold Ledger.Spend at hspend
      rw [if_neg hfee] at hspend
      rw [show c1.name = childName from rfl, hfind₂] at hspend
      dsimp only at hspend
      cases hrem₂ : c1.Remove currency fee with
      | error e =>
        rw [hrem₂] at hspend
        exact absurd hspend (by simp)
      | ok rc =>
        obtain ⟨removed₂, c1₁⟩ := rc
        rw [hrem₂] at hspend
        dsimp only at hspend
        obtain ⟨_, _, hremoved₂, hc1₁⟩ :=
          Remove_ok_inv c1 currency fee removed₂ c1₁ hrem₂
        have hlk : l₁.lookupPrice currency date = l.lookupPrice currency date :=
          rfl
        rw [hlk] at hspend
        cases hpr : l.lookupPrice currency date with
        | error e =>
          rw [hpr] at hspend
          exact absurd hspend (by simp)
        | ok price₀ =>
          rw [hpr] at hspend
          dsimp only at hspend
          have hkey : price₀ * fee = value ∧
              l₂.lots[l.lots.length]? = some c1₁ := by
            by_cases hg : price₀ * fee - removed₂ = 0
            · rw [if_pos hg] at hspend
              simp only [Except.ok.injEq, Prod.mk.injEq] at hspend
              obtain ⟨hv, hl₂⟩ := hspend
              refine ⟨hv, ?_⟩
              rw [← hl₂]
              dsimp only
              rw [set_append_last, ← hsetlen, List.getElem?_concat_length]
            · rw [if_neg hg] at hspend
              cases hscg : findLotRev
                  (((l.lots.set i lot₂) ++ [c1]).set (l.lots.set i lot₂).length c1₁)
                  (c1.name ++ ".spendCapitalGains") with
              | some r =>
                obtain ⟨j, scg⟩ := r
                rw [hscg] at hspend
                dsimp only [Lot.nameChild, NewChildLot, NewLot] at hspend
                simp only [Except.ok.injEq, Prod.mk.injEq] at hspend
                obtain ⟨hv, hl₂⟩ := hspend
                obtain ⟨hgetj, hnamej, _⟩ := findLotRev_some_spec _ _ j scg hscg
                have hjn : j ≠ (l.lots.set i lot₂).length := by
                  intro hj
                  rw [hj] at hgetj
                  rw [set_append_last, List.getElem?_concat_length] at hgetj
                  have heq : c1₁ = scg := by simpa using hgetj
                  have hn₁ : c1₁.name = c1.name := by rw [hc1₁]
                  rw [← heq, hn₁] at hnamej
                  exact spendName_ne c1.name hnamej.symm
                refine ⟨hv, ?_⟩
                rw [← hl₂]
                dsimp only
                rw [List.getElem?_append_left (by
                    simp only [List.length_set, List.length_append,
                      List.length_singleton]
                    omega),
                  List.getElem?_set_ne (by
                    rw [hsetlen] at hjn
                    exact hjn),
                  set_append_last, ← hsetlen, List.getElem?_concat_length]
              | none =>
                rw [hscg] at hspend
                dsimp only [Lot.nameChild, NewChildLot, NewLot] at hspend
                rw [set_append_last, set_append_last] at hspend
                simp only [Except.ok.injEq, Prod.mk.injEq] at hspend
                obtain ⟨hv, hl₂⟩ := hspend
                refine ⟨hv, ?_⟩
                rw [← hl₂]
                dsimp only
                rw [List.getElem?_append_left (by
                    simp only [List.length_append, List.length_singleton,
                      List.length_set]
                    omega),
                  List.getElem?_append_left (by
                    simp only [List.length_append, List.length_singleton,
                      List.length_set]
                    omega),
                  ← hsetlen, List.getElem?_concat_length]
          obtain ⟨hval, hgetn⟩ := hkey
          rw [List.getD_eq_getElem?_getD, hgetn] at h
          dsimp only [Option.getD_some] at h
          simp only [Except.ok.injEq, Prod.mk.injEq] at h
          obtain ⟨hnew, hl'⟩ := h
          rw [← hnew, hc1₁]
          refine ⟨rfl, rfl, rfl, rfl, fun h0 => absurd h0 hfee,
            fun _ price hpriceGiven => ?_⟩
          have hpeq : price₀ = price := Except.ok.inj hpriceGiven
          rw [← hpeq, ← hval]
          constructor
          · show c1.amount - c1.amount * effFrac c1 fee = _
            rw [hc1]
            dsimp only [effFrac]
          · show (c1.costBasis - c1.costBasis * effFrac c1 fee) +
              (price₀ * fee) = _
            rw [hc1]
            dsimp only [effFrac]

theorem c4_remove_source :
    (⟨none, "1", .Asset, "A", "BTC", 3, 1, 100, none, 1, 100, 0⟩ : Lot).Remove
      "BTC" (1/2) =
    .ok (50, ⟨none, "1", .Asset, "A", "BTC", 3, 1, 100, none, 1/2, 50, 0⟩) := by
  rw [Remove_ok _ "BTC" (1/2) rfl (not_lt.mpr (RoundPlaces_le_one_of _
    (by norm_num) (by norm_num)))]
  rw [show effFrac
      (⟨none, "1", .Asset, "A", "BTC", 3, 1, 100, none, 1, 100, 0⟩ : Lot)
      (1/2) = 1/2 from by
    unfold effFrac
    rw [if_neg (by norm_num)]
    norm_num]
  norm_num

theorem c4_remove_fee :
    (⟨some 0, "1.1", .Asset, "B", "BTC", 3, 1/2, 50, none, 1/2, 50, 0⟩ : Lot).Remove
      "BTC" (1/10) =
    .ok (10, ⟨some 0, "1.1", .Asset, "B", "BTC", 3, 1/2, 50, none, 2/5, 40, 0⟩) := by
  rw [Remove_ok _ "BTC" (1/10) rfl (not_lt.mpr (RoundPlaces_le_one_of _
    (by norm_num) (by norm_num)))]
  rw [show effFrac
      (⟨some 0, "1.1", .Asset, "B", "BTC", 3, 1/2, 50, none, 1/2, 50, 0⟩ : Lot)
      (1/10) = 1/5 from by
    unfold effFrac
    rw [if_neg (by norm_num)]
    norm_num]
  norm_num

/-- C4 counterexample: transferring `1/2` BTC with a `1/10` BTC fee out of a
1-BTC lot with basis 100 (price 100 on the transfer date) removes cost basis
50 and values the fee disposal at `100·(1/10) = 10`, but the returned new
lot ends with amount `2/5` — not the claimed `amountRemoved = 1/2`, because
the fee is spent FROM the new lot — and with cost basis `50`, not the
claimed `removedCostBasis + feeValue = 50 + 10 = 60`. -/
theorem C4_counterexample :
    resultLotAmount (c4L.Transfer 5 "1" "BTC" (1/2) (1/10) "B") = some (2/5)
    ∧ resultLotBasis (c4L.Transfer 5 "1" "BTC" (1/2) (1/10) "B") = some 50
    ∧ removedPart (c4lot.Remove "BTC" (1/2)) = some 50
    ∧ c4L.lookupPrice "BTC" 5 = .ok 100
    ∧ (2 : ℚ)/5 ≠ 1/2 ∧ (50 : ℚ) ≠ 50 + 100 * (1/10) := by
  refine ⟨?_, ?_, ?_, by decide, by norm_num, by norm_num⟩
  · norm_num [Ledger.Transfer, Ledger.Spend, Ledger.FindLotByName,
      Ledger.findLotIdx, findLotRev, Ledger.lookupPrice, lookupAssoc,
      NewChildLot, Lot.nameChild, NewLot, c4L, c4lot,
      c4_remove_source, c4_remove_fee, resultLotAmount,
      List.getD_eq_getElem?_getD,
      show toString (1:Nat) = "1" from by decide,
      show ("1" : String) ++ "." ++ "1" = "1.1" from by decide,
      show ¬ ("BTC" : String) = "USD" from by decide]
  · norm_num [Ledger.Transfer, Ledger.Spend, Ledger.FindLotByName,
      Ledger.findLotIdx, findLotRev, Ledger.lookupPrice, lookupAssoc,
      NewChildLot, Lot.nameChild, NewLot, c4L, c4lot,
      c4_remove_source, c4_remove_fee, resultLotBasis,
      List.getD_eq_getElem?_getD,
      show toString (1:Nat) = "1" from by decide,
      show ("1" : String) ++ "." ++ "1" = "1.1" from by decide,
      show ¬ ("BTC" : String) = "USD" from by decide]
  · rw [show c4lot.Remove "BTC" (1/2) = .ok (50,
      ⟨none, "1", .Asset, "A", "BTC", 3, 1, 100, none, 1/2, 50, 0⟩) from
      c4_remove_source]
    rfl

theorem C4_witness :
    c4wNew.amount = 1/2 ∧ c4wNew.costBasis = 50
    ∧ c4wL2.lots.length = c4L.lots.length + 1 := by
  have h : c4L.Transfer 5 "1" "BTC" (1/2) 0 "B" = .ok (c4wNew, c4wL2) := by
    norm_num [Ledger.Transfer, Ledger.Spend, Ledger.FindLotByName,
      Ledger.findLotIdx, findLotRev, Ledger.lookupPrice, lookupAssoc,
      NewChildLot, Lot.nameChild, NewLot, c4L, c4lot, c4wNew, c4wL2,
      c4_remove_source, List.getD_eq_getElem?_getD,
      show toString (1:Nat) = "1" from by decide,
      show ("1" : String) ++ "." ++ "1" = "1.1" from by decide,
      show ¬ ("BTC" : String) = "USD" from by decide]
  exact (C4_transfer c4L 5 "1" "BTC" (1/2) 0 "B" 0 c4lot 50
    (⟨none, "1", .Asset, "A", "BTC", 3, 1, 100, none, 1/2, 50, 0⟩ : Lot)
    c4wNew c4wL2 (by decide) c4_remove_source h).2.2.2.2.1 rfl

theorem foldl_contribution (localCurrency : String) (lots : List Lot) (a : ℚ) :
    lots.foldl
      (fun acc lot =>
        if lot.parent = none ∧ lot.currency = localCurrency then
          acc + lot.originalCostBasis
        else acc) a
      = a + TIl localCurrency lots := by
  induction lots generalizing a with
  | nil => simp [TIl]
  | cons x xs ih =>
    simp only [List.foldl_cons, TIl, List.map_cons, List.sum_cons]
    rw [ih]
    unfold TIl contribution
    by_cases h : x.parent = none ∧ x.currency = localCurrency
    · rw [if_pos h, if_pos h]
      ring
    · rw [if_neg h, if_neg h]
      ring

theorem TotalInvestment_eq (l : Ledger) :
    l.TotalInvestment = TIl l.localCurrency l.lots := by
  unfold Ledger.TotalInvestment
  rw [foldl_contribution]
  ring

theorem TIl_append (c : String) (xs ys : List Lot) :
    TIl c (xs ++ ys) = TIl c xs + TIl c ys := by
  unfold TIl
  rw [List.map_append, List.sum_append]

theorem TIl_set (c : String) (lots : List Lot) (k : Nat) (x : Lot)
    (hk : ∀ lot', lots[k]? = some lot' →
      contribution c lot' = contribution c x) :
    TIl c (lots.set k x) = TIl c lots := by
  unfold TIl
  induction lots generalizing k with
  | nil => simp
  | cons a rest ih =>
    cases k with
    | zero =>
      have ha := hk a (by simp)
      simp only [List.set_cons_zero, List.map_cons, List.sum_cons, ha]
    | succ k' =>
      simp only [List.set_cons_succ, List.map_cons, List.sum_cons]
      rw [ih k' (fun lot' hget => hk lot' (by simpa using hget))]

theorem TIl_singleton (c : String) (x : Lot) :
    TIl c [x] = contribution c x := by
  simp [TIl]

theorem contribution_child (c : String) (i : Nat) (name : String)
    (t : LotType) (pt : Int) (acct cur : String) (amt cb : ℚ) :
    contribution c (NewLot (some i) name t pt acct cur amt cb) = 0 := by
  unfold contribution NewLot
  rw [if_neg (by simp)]

theorem contribution_update₂ (c : String) (lot : Lot) (amt cb : ℚ) :
    contribution c { lot with amount := amt, costBasis := cb } =
      contribution c lot := rfl

theorem contribution_update_seq (c : String) (lot : Lot) (n : Nat) :
    contribution c { lot with sequenceGenerator := n } =
      contribution c lot := rfl

theorem contribution_update_basis (c : String) (lot : Lot) (cb : ℚ) :
    contribution c { lot with costBasis := cb } = contribution c lot := rfl

theorem contribution_update_details (c : String) (lot : Lot)
    (d : Option TaxableGainsDetails) :
    contribution c { lot with taxableGainsDetails := d } =
      contribution c lot := rfl

theorem contribution_zero_basis (c : String) (lot : Lot)
    (h : lot.originalCostBasis = 0) : contribution c lot = 0 := by
  unfold contribution
  split <;> simp [h]

/-- `Spend` never changes `TotalInvestment` (nor the fixed ledger fields):
it only rescales existing lots' mutable fields and appends child lots or a
zero-basis synthetic root. -/
theorem TI_Spend (l : Ledger) (date : Int) (acct nm cur : String)
    (amt : ℚ) (note : String) (value : ℚ) (l' : Ledger)
    (h : l.Spend date acct nm cur amt note = .ok (value, l')) :
    l'.TotalInvestment = l.TotalInvestment
    ∧ l'.localCurrency = l.localCurrency
    ∧ l'.historicalPrices = l.historicalPrices
    ∧ l'.sequenceGenerator = l.sequenceGenerator := by
  unfold Ledger.Spend at h
  by_cases hz : amt = 0
  · rw [if_pos hz] at h
    simp only [Except.ok.injEq, Prod.mk.injEq] at h
    rw [← h.2]
    exact ⟨rfl, rfl, rfl, rfl⟩
  rw [if_neg hz] at h
  cases hfind : l.FindLotByName nm cur with
  | error e =>
    rw [hfind] at h
    exact absurd h (by simp)
  | ok r =>
    obtain ⟨i, lot⟩ := r
    rw [hfind] at h
    dsimp only at h
    obtain ⟨hfl, _⟩ := FindLotByName_ok_inv l nm cur i lot hfind
    obtain ⟨hgeti, hnamei, _⟩ := findLotRev_some_spec l.lots nm i lot hfl
    cases hrem : lot.Remove cur amt with
    | error e =>
      rw [hrem] at h
      exact absurd h (by simp)
    | ok rc =>
      obtain ⟨removed, lot₁⟩ := rc
      rw [hrem] at h
      dsimp only at h
      have hlot₁eq := (Remove_ok_inv lot cur amt removed lot₁ hrem).2.2.2
      have hset : TIl l.localCurrency (l.lots.set i lot₁) =
          TIl l.localCurrency l.lots := by
        refine TIl_set _ _ _ _ (fun lot' hget => ?_)
        rw [hgeti] at hget
        have heq : lot = lot' := by simpa using hget
        rw [← heq, hlot₁eq]
        rfl
      cases hpr : l.lookupPrice cur date with
      | error e =>
        rw [hpr] at h
        exact absurd h (by simp)
      | ok price =>
        rw [hpr] at h
        dsimp only at h
        by_cases hg : price * amt - removed = 0
        · rw [if_pos hg] at h
          simp only [Except.ok.injEq, Prod.mk.injEq] at h
          rw [← h.2]
          refine ⟨?_, rfl, rfl, rfl⟩
          rw [TotalInvestment_eq, TotalInvestment_eq]
          dsimp only
          exact hset
        · rw [if_neg hg] at h
          cases hscg : findLotRev (l.lots.set i lot₁)
              (lot.name ++ ".spendCapitalGains") with
          | some r =>
            obtain ⟨j, scg⟩ := r
            rw [hscg] at h
            dsimp only [NewChildLot, Lot.nameChild, NewLot] at h
            simp only [Except.ok.injEq, Prod.mk.injEq] at h
            rw [← h.2]
            refine ⟨?_, rfl, rfl, rfl⟩
            rw [TotalInvestment_eq, TotalInvestment_eq]
            dsimp only
            obtain ⟨hgetj, hnamej, _⟩ := findLotRev_some_spec _ _ j scg hscg
            rw [TIl_append, TIl_set _ _ _ _ (fun lot' hget => by
              rw [hgetj] at hget
              have heq : scg = lot' := by simpa using hget
              rw [← heq]
              rfl)]
            rw [hset, TIl_singleton]
            rw [show contribution l.localCurrency
              { parent := some j,
                name := scg.name ++ "." ++ toString (scg.sequenceGenerator + 1),
                lotType := .TaxableGains, account := "", currency := lot.currency,
                originalPurchaseTime := date, originalPurchaseAmount := 0,
                originalCostBasis := 0,
                taxableGainsDetails := some
                  { account := acct, currency := lot.currency,
                    originalPurchaseTime := lot.originalPurchaseTime,
                    costBasis := removed, dateOfSale := date,
                    proceeds := price * amt, soldAmount := amt, note := note },
                amount := 0, costBasis := 0, sequenceGenerator := 0 } = 0 from
              contribution_zero_basis _ _ rfl]
            ring
          | none =>
            rw [hscg] at h
            dsimp only [NewChildLot, Lot.nameChild, NewLot] at h
            rw [set_append_last] at h
            simp only [Except.ok.injEq, Prod.mk.injEq] at h
            rw [← h.2]
            refine ⟨?_, rfl, rfl, rfl⟩
            rw [TotalInvestment_eq, TotalInvestment_eq]
            dsimp only
            rw [TIl_append, TIl_append, hset, TIl_singleton, TIl_singleton]
            rw [contribution_zero_basis _ _ rfl, contribution_zero_basis _ _ rfl]
            ring

theorem TIl_set_getElem (c : String) (lots : List Lot) (k : Nat) (lot x : Lot)
    (hget : lots[k]? = some lot)
    (hc : contribution c x = contribution c lot) :
    TIl c (lots.set k x) = TIl c lots := by
  refine TIl_set _ _ _ _ (fun lot' hget' => ?_)
  rw [hget] at hget'
  have heq : lot = lot' := by simpa using hget'
  rw [← heq, hc]

theorem TIl_pair (c : String) (x y : Lot) :
    TIl c [x, y] = contribution c x + contribution c y := by
  simp [TIl]

/-- Bumping the cost basis of the lot at position `n` (read back through
`getD`, as the Go code reads it through a pointer) never changes the
investment total. -/
theorem TIl_set_basis_bump (c : String) (lots : List Lot) (n : Nat) (d : Lot)
    (v : ℚ) :
    TIl c (lots.set n { lots.getD n d with costBasis := v }) = TIl c lots := by
  refine TIl_set _ _ _ _ (fun lot' hget => ?_)
  rw [List.getD_eq_getElem?_getD, hget]
  rfl

theorem contribution_root (c : String) (name : String) (t : LotType) (pt : Int)
    (acct cur : String) (amt cb : ℚ) :
    contribution c (NewLot none name t pt acct cur amt cb) =
      if cur = c then cb else 0 := by
  unfold contribution NewLot
  dsimp only
  by_cases h : cur = c
  · rw [if_pos ⟨rfl, h⟩, if_pos h]
  · rw [if_neg (fun hc => h hc.2), if_neg h]

/-- The common shape of `Purchase`, `Transfer` (before the fee) and
`ExchangeNonTaxable`: replace the source lot by a contribution-equal update
and append one child lot. -/
theorem TIl_set_child_append (c : String) (lots : List Lot) (i : Nat)
    (lot lot₂ child : Lot)
    (hget : lots[i]? = some lot)
    (h₂ : contribution c lot₂ = contribution c lot)
    (hchild : contribution c child = 0) :
    TIl c ((lots.set i lot₂) ++ [child]) = TIl c lots := by
  rw [TIl_append, TIl_singleton, hchild, add_zero]
  exact TIl_set_getElem c lots i lot lot₂ hget h₂

/-- The shape of `ExchangeTaxable`: replace the source lot and append the
destination child plus the gains child. -/
theorem TIl_set_child2_append (c : String) (lots : List Lot) (i : Nat)
    (lot lot₂ x y : Lot)
    (hget : lots[i]? = some lot)
    (h₂ : contribution c lot₂ = contribution c lot)
    (hx : contribution c x = 0) (hy : contribution c y = 0) :
    TIl c ((lots.set i lot₂) ++ [x, y]) = TIl c lots := by
  rw [TIl_append, TIl_pair, hx, hy, add_zero, add_zero]
  exact TIl_set_getElem c lots i lot lot₂ hget h₂

/-- `DepositNewMoney` adds exactly its cost-basis argument to
`TotalInvestment` (the deposit lot is parentless and in the reporting
currency). -/
theorem TI_Deposit (l : Ledger) (date : Int) (acct : String) (amt cb : ℚ) :
    (l.DepositNewMoney date acct amt cb).TotalInvestment =
      l.TotalInvestment + cb
    ∧ (l.DepositNewMoney date acct amt cb).localCurrency = l.localCurrency := by
  unfold Ledger.DepositNewMoney Ledger.nameLot
  refine ⟨?_, rfl⟩
  rw [TotalInvestment_eq, TotalInvestment_eq]
  dsimp only
  rw [TIl_append, TIl_singleton, contribution_root, if_pos rfl]

/-- `Income` adds the recorded cost to `TotalInvestment` exactly when the
income currency is the reporting currency. -/
theorem TI_Income (l : Ledger) (date : Int) (acct cur : String)
    (amt cost : ℚ) (note : String) :
    (l.Income date acct cur amt cost note).TotalInvestment =
      l.TotalInvestment + (if cur = l.localCurrency then cost else 0)
    ∧ (l.Income date acct cur amt cost note).localCurrency = l.localCurrency := by
  unfold Ledger.Income Ledger.nameLot
  refine ⟨?_, rfl⟩
  rw [TotalInvestment_eq, TotalInvestment_eq]
  dsimp only
  rw [TIl_append, TIl_singleton, contribution_root]

/-- `Purchase` leaves `TotalInvestment` unchanged. -/
theorem TI_Purchase (l : Ledger) (date : Int) (nm acct cur : String)
    (amt cost : ℚ) (newLot : Lot) (l' : Ledger)
    (h : l.Purchase date nm acct cur amt cost = .ok (newLot, l')) :
    l'.TotalInvestment = l.TotalInvestment
    ∧ l'.localCurrency = l.localCurrency := by
  unfold Ledger.Purchase at h
  cases hfind : l.FindLotByName nm l.localCurrency with
  | error e =>
    rw [hfind] at h
    exact absurd h (by simp)
  | ok r =>
    obtain ⟨i, lot⟩ := r
    rw [hfind] at h
    dsimp only at h
    cases hrem : lot.Remove l.localCurrency cost with
    | error e =>
      rw [hrem] at h
      exact absurd h (by simp)
    | ok rc =>
      obtain ⟨removed, lot₁⟩ := rc
      rw [hrem] at h
      dsimp only at h
      simp only [Except.ok.injEq, Prod.mk.injEq] at h
      rw [← h.2]
      refine ⟨?_, rfl⟩
      rw [TotalInvestment_eq, TotalInvestment_eq]
      dsimp only
      obtain ⟨hfl, _⟩ := FindLotByName_ok_inv l nm l.localCurrency i lot hfind
      obtain ⟨hgeti, _, _⟩ := findLotRev_some_spec l.lots nm i lot hfl
      have hlot₁eq := (Remove_ok_inv lot l.localCurrency cost removed lot₁ hrem).2.2.2
      exact TIl_set_child_append l.localCurrency l.lots i lot _ _ hgeti
        (by rw [hlot₁eq]; rfl) rfl

/-- `ExchangeNonTaxable` leaves `TotalInvestment` unchanged. -/
theorem TI_ExchangeNonTaxable (l : Ledger) (date : Int) (nm scur : String)
    (samt fee : ℚ) (pcur : String) (pamt : ℚ) (l' : Ledger)
    (h : l.ExchangeNonTaxable date nm scur samt fee pcur pamt = .ok l') :
    l'.TotalInvestment = l.TotalInvestment
    ∧ l'.localCurrency = l.localCurrency := by
  unfold Ledger.ExchangeNonTaxable at h
  cases hfind : l.FindLotByName nm scur with
  | error e =>
    rw [hfind] at h
    exact absurd h (by simp)
  | ok r =>
    obtain ⟨i, lot⟩ := r
    rw [hfind] at h
    dsimp only at h
    by_cases hd : ¬ lot.originalPurchaseTime = date ∧
        ¬ lot.originalPurchaseTime > date
    · rw [if_pos hd] at h
      exact absurd h (by simp)
    · rw [if_neg hd] at h
      cases hrem : lot.Remove scur samt with
      | error e =>
        rw [hrem] at h
        exact absurd h (by simp)
      | ok rc =>
        obtain ⟨removed, lot₁⟩ := rc
        rw [hrem] at h
        dsimp only at h
        simp only [Except.ok.injEq] at h
        rw [← h]
        refine ⟨?_, rfl⟩
        rw [TotalInvestment_eq, TotalInvestment_eq]
        dsimp only
        obtain ⟨hfl, _⟩ := FindLotByName_ok_inv l nm scur i lot hfind
        obtain ⟨hgeti, _, _⟩ := findLotRev_some_spec l.lots nm i lot hfl
        have hlot₁eq := (Remove_ok_inv lot scur samt removed lot₁ hrem).2.2.2
        exact TIl_set_child_append l.localCurrency l.lots i lot _ _ hgeti
          (by rw [hlot₁eq]; rfl) rfl

/-- `ExchangeTaxable` leaves `TotalInvestment` unchanged: the destination and
gains lots are children, and the source lot only loses mutable balance. -/
theorem TI_ExchangeTaxable (l : Ledger) (date : Int) (nm scur : String)
    (samt fee : ℚ) (lookupSold : Bool) (pcur : String) (pamt : ℚ)
    (newLot : Lot) (l' : Ledger)
    (h : l.ExchangeTaxable date nm scur samt fee lookupSold pcur pamt =
      .ok (newLot, l')) :
    l'.TotalInvestment = l.TotalInvestment
    ∧ l'.localCurrency = l.localCurrency := by
  unfold Ledger.ExchangeTaxable at h
  cases hfind : l.FindLotByName nm scur with
  | error e =>
    rw [hfind] at h
    exact absurd h (by simp)
  | ok r =>
    obtain ⟨i, lot⟩ := r
    rw [hfind] at h
    dsimp only at h
    cases hrem : lot.Remove scur samt with
    | error e =>
      rw [hrem] at h
      exact absurd h (by simp)
    | ok rc =>
      obtain ⟨removed, lot₁⟩ := rc
      rw [hrem] at h
      dsimp only at h
      cases hpr : (if lookupSold
          then Except.map (fun p => p * samt) (l.lookupPrice scur date)
          else Except.map (fun p => p * pamt) (l.lookupPrice pcur date)) with
      | error e =>
        rw [hpr] at h
        exact absurd h (by simp)
      | ok pe =>
        rw [hpr] at h
        dsimp only at h
        simp only [Except.ok.injEq, Prod.mk.injEq] at h
        rw [← h.2]
        refine ⟨?_, rfl⟩
        rw [TotalInvestment_eq, TotalInvestment_eq]
        dsimp only
        obtain ⟨hfl, _⟩ := FindLotByName_ok_inv l nm scur i lot hfind
        obtain ⟨hgeti, _, _⟩ := findLotRev_some_spec l.lots nm i lot hfl
        have hlot₁eq := (Remove_ok_inv lot scur samt removed lot₁ hrem).2.2.2
        exact TIl_set_child2_append l.localCurrency l.lots i lot _ _ _ hgeti
          (by rw [hlot₁eq]; rfl) rfl rfl

/-- `Fee` leaves `TotalInvestment` unchanged: it is a `Spend` followed by a
cost-basis bump of an existing lot. -/
theorem TI_Fee (l : Ledger) (date : Int) (nm cur : String) (amt : ℚ)
    (applyTo note : String) (l' : Ledger)
    (h : l.Fee date nm cur amt applyTo note = .ok l') :
    l'.TotalInvestment = l.TotalInvestment
    ∧ l'.localCurrency = l.localCurrency := by
  unfold Ledger.Fee at h
  cases hfind : l.findLotIdx applyTo with
  | error e =>
    rw [hfind] at h
    exact absurd h (by simp)
  | ok r =>
    obtain ⟨j, feeLot⟩ := r
    rw [hfind] at h
    dsimp only at h
    cases hsp : l.Spend date feeLot.account nm cur amt
        ("fee applied: " ++ note) with
    | error e =>
      rw [hsp] at h
      exact absurd h (by simp)
    | ok vl =>
      obtain ⟨value, l₁⟩ := vl
      rw [hsp] at h
      dsimp only at h
      obtain ⟨hTI₁, hlc₁, _, _⟩ := TI_Spend l date feeLot.account nm cur amt
        ("fee applied: " ++ note) value l₁ hsp
      simp only [Except.ok.injEq] at h
      rw [← h]
      refine ⟨?_, hlc₁⟩
      rw [TotalInvestment_eq]
      dsimp only
      rw [hlc₁, TIl_set_basis_bump, ← hlc₁, ← TotalInvestment_eq]
      exact hTI₁

/-- `Transfer` leaves `TotalInvestment` unchanged. -/
theorem TI_Transfer (l : Ledger) (date : Int) (nm cur : String)
    (amt fee : ℚ) (toAcct : String) (newLot : Lot) (l' : Ledger)
    (h : l.Transfer date nm cur amt fee toAcct = .ok (newLot, l')) :
    l'.TotalInvestment = l.TotalInvestment
    ∧ l'.localCurrency = l.localCurrency := by
  unfold Ledger.Transfer at h
  cases hfind : l.FindLotByName nm cur with
  | error e =>
    rw [hfind] at h
    exact absurd h (by simp)
  | ok r =>
    obtain ⟨i, lot⟩ := r
    rw [hfind] at h
    dsimp only at h
    cases hrem : lot.Remove cur amt with
    | error e =>
      rw [hrem] at h
      exact absurd h (by simp)
    | ok rc =>
      obtain ⟨removed, lot₁⟩ := rc
      rw [hrem] at h
      dsimp only at h
      obtain ⟨hfl, _⟩ := FindLotByName_ok_inv l nm cur i lot hfind
      obtain ⟨hgeti, _, _⟩ := findLotRev_some_spec l.lots nm i lot hfl
      have hlot₁eq := (Remove_ok_inv lot cur amt removed lot₁ hrem).2.2.2
      set c := NewChildLot i lot₁ .Asset lot.originalPurchaseTime toAcct cur
        amt removed with hc
      set l₁ : Ledger := { l with lots := (l.lots.set i c.2) ++ [c.1] }
        with hl₁
      have hTI₁ : TIl l.localCurrency l₁.lots = TIl l.localCurrency l.lots := by
        rw [hl₁]
        dsimp only
        exact TIl_set_child_append l.localCurrency l.lots i lot _ _ hgeti
          (by rw [hc, hlot₁eq]; rfl) (by rw [hc]; rfl)
      cases hsp : l₁.Spend date lot.account c.1.name cur fee
          ("fee for transferring from " ++ lot.account ++ " to " ++ toAcct) with
      | error e =>
        rw [hsp] at h
        exact absurd h (by simp)
      | ok vl =>
        obtain ⟨value, l₂⟩ := vl
        rw [hsp] at h
        dsimp only at h
        obtain ⟨hTI₂, hlc₂, _, _⟩ := TI_Spend l₁ date lot.account c.1.name cur
          fee ("fee for transferring from " ++ lot.account ++ " to " ++ toAcct)
          value l₂ hsp
        simp only [Except.ok.injEq, Prod.mk.injEq] at h
        rw [← h.2]
        have hlc₁ : l₁.localCurrency = l.localCurrency := by rw [hl₁]
        refine ⟨?_, by dsimp only; rw [hlc₂, hlc₁]⟩
        rw [TotalInvestment_eq]
        dsimp only
        rw [hlc₂, hlc₁, TIl_set_basis_bump]
        rw [← hlc₁, ← hlc₂, ← TotalInvestment_eq, hTI₂, TotalInvestment_eq,
          hlc₁, hTI₁, ← TotalInvestment_eq]

/-- The merge loop leaves `TotalInvestment` unchanged: it only drains the
mutable balance of existing lots. -/
theorem TI_mergeLoop (purchaseDate : Int) (currency : String)
    (names : List String) :
    ∀ (l : Ledger) (isFirst : Bool) (ppu : ℚ) (acct : String) (tA tB : ℚ)
      (tA' tB' : ℚ) (acct' : String) (l' : Ledger),
    l.mergeLoop purchaseDate currency names isFirst ppu acct tA tB =
      .ok (tA', tB', acct', l') →
    l'.TotalInvestment = l.TotalInvestment
    ∧ l'.localCurrency = l.localCurrency := by
  induction names with
  | nil =>
    intro l isFirst ppu acct tA tB tA' tB' acct' l' h
    unfold Ledger.mergeLoop at h
    simp only [Except.ok.injEq, Prod.mk.injEq] at h
    rw [← h.2.2.2]
    exact ⟨rfl, rfl⟩
  | cons name rest ih =>
    intro l isFirst ppu acct tA tB tA' tB' acct' l' h
    unfold Ledger.mergeLoop at h
    cases hfind : l.FindLotByName name currency with
    | error e =>
      rw [hfind] at h
      exact absurd h (by simp)
    | ok r =>
      obtain ⟨i, lot⟩ := r
      rw [hfind] at h
      dsimp only at h
      by_cases hd : lot.originalPurchaseTime ≠ purchaseDate
      · rw [if_pos hd] at h
        exact absurd h (by simp)
      rw [if_neg hd] at h
      by_cases hp : ¬ isFirst = true ∧
          RoundPlaces (ppu - lot.costBasis / lot.amount) 11 ≠ 0
      · rw [if_pos hp] at h
        exact absurd h (by simp)
      rw [if_neg hp] at h
      by_cases ha : ¬ isFirst = true ∧ acct ≠ lot.account
      · rw [if_pos ha] at h
        exact absurd h (by simp)
      rw [if_neg ha] at h
      cases hrem : lot.Remove currency lot.amount with
      | error e =>
        rw [hrem] at h
        exact absurd h (by simp)
      | ok rc =>
        obtain ⟨removed, lot'⟩ := rc
        rw [hrem] at h
        dsimp only at h
        obtain ⟨hTI, hlc⟩ := ih _ _ _ _ _ _ _ _ _ _ h
        obtain ⟨hfl, _⟩ := FindLotByName_ok_inv l name currency i lot hfind
        obtain ⟨hgeti, _, _⟩ := findLotRev_some_spec l.lots name i lot hfl
        have hlot'eq :=
          (Remove_ok_inv lot currency lot.amount removed lot' hrem).2.2.2
        constructor
        · rw [hTI, TotalInvestment_eq, TotalInvestment_eq]
          dsimp only
          exact TIl_set_getElem l.localCurrency l.lots i lot _ hgeti
            (by rw [hlot'eq]; rfl)
        · rw [hlc]

/-- `MergeIdenticalLots` adds the new root lot's original cost basis to
`TotalInvestment` when (and only when) the merged currency is the reporting
currency; for any other currency it leaves the total unchanged. -/
theorem TI_Merge (l : Ledger) (purchaseDate : Int) (currency : String)
    (names : List String) (newLot : Lot) (l' : Ledger)
    (h : l.MergeIdenticalLots purchaseDate currency names = .ok (newLot, l')) :
    l'.TotalInvestment = l.TotalInvestment +
      (if currency = l.localCurrency then newLot.originalCostBasis else 0)
    ∧ l'.localCurrency = l.localCurrency
    ∧ newLot.parent = none ∧ newLot.currency = currency := by
  unfold Ledger.MergeIdenticalLots at h
  cases hloop : l.mergeLoop purchaseDate currency names true 0 "" 0 0 with
  | error e =>
    rw [hloop] at h
    exact absurd h (by simp)
  | ok r =>
    obtain ⟨tA, r2⟩ := r
    obtain ⟨tB, r3⟩ := r2
    obtain ⟨acct, l₁⟩ := r3
    rw [hloop] at h
    dsimp only [Ledger.nameLot] at h
    obtain ⟨hTI₁, hlc₁⟩ :=
      TI_mergeLoop purchaseDate currency names l true 0 "" 0 0 tA tB acct l₁
        hloop
    simp only [Except.ok.injEq, Prod.mk.injEq] at h
    obtain ⟨hnew, hl'⟩ := h
    rw [← hl', ← hnew]
    refine ⟨?_, by dsimp only; rw [hlc₁], rfl, rfl⟩
    rw [TotalInvestment_eq]
    dsimp only
    rw [hlc₁, TIl_append, TIl_singleton, contribution_root]
    rw [← hlc₁, ← TotalInvestment_eq, hTI₁]
    rfl

theorem TI_transferMultipleLoop (date : Int) (currency : String)
    (total fee : ℚ) (toAcct : String) (names : List String) :
    ∀ (remaining : ℚ) (acc : List Lot) (l : Ledger) (res : List Lot)
      (rem' : ℚ) (l' : Ledger),
    Ledger.transferMultipleLoop date currency total fee toAcct names
      remaining acc l = .ok (res, rem', l') →
    l'.TotalInvestment = l.TotalInvestment
    ∧ l'.localCurrency = l.localCurrency := by
  induction names with
  | nil =>
    intro remaining acc l res rem' l' h
    unfold Ledger.transferMultipleLoop at h
    simp only [Except.ok.injEq, Prod.mk.injEq] at h
    rw [← h.2.2]
    exact ⟨rfl, rfl⟩
  | cons name rest ih =>
    intro remaining acc l res rem' l' h
    unfold Ledger.transferMultipleLoop at h
    cases hfind : l.FindLotByName name currency with
    | error e =>
      rw [hfind] at h
      exact absurd h (by simp)
    | ok r =>
      obtain ⟨j, lot⟩ := r
      rw [hfind] at h
      dsimp only at h
      by_cases hr : remaining ≤ 0
      · rw [if_pos hr] at h
        exact absurd h (by simp)
      rw [if_neg hr] at h
      cases htr : l.Transfer date lot.name currency (min lot.amount remaining)
          (fee * (min lot.amount remaining / total)) toAcct with
      | error e =>
        rw [htr] at h
        exact absurd h (by simp)
      | ok r2 =>
        obtain ⟨nl, l₂⟩ := r2
        rw [htr] at h
        dsimp only at h
        obtain ⟨hTI₂, hlc₂⟩ := TI_Transfer l date lot.name currency
          (min lot.amount remaining) (fee * (min lot.amount remaining / total))
          toAcct nl l₂ htr
        obtain ⟨hTI, hlc⟩ := ih _ _ _ _ _ _ h
        exact ⟨hTI.trans hTI₂, hlc.trans hlc₂⟩

/-- `TransferMultipleLots` leaves `TotalInvestment` unchanged. -/
theorem TI_TransferMultipleLots (l : Ledger) (date : Int)
    (names : List String) (currency : String) (total fee : ℚ)
    (toAcct : String) (res : List Lot) (l' : Ledger)
    (h : l.TransferMultipleLots date names currency total fee toAcct =
      .ok (res, l')) :
    l'.TotalInvestment = l.TotalInvestment
    ∧ l'.localCurrency = l.localCurrency := by
  unfold Ledger.TransferMultipleLots at h
  cases hloop : Ledger.transferMultipleLoop date currency total fee toAcct
      names total [] l with
  | error e =>
    rw [hloop] at h
    exact absurd h (by simp)
  | ok r =>
    obtain ⟨lots', r2⟩ := r
    obtain ⟨remaining, l₁⟩ := r2
    rw [hloop] at h
    dsimp only at h
    by_cases h1 : remaining > 0
    · rw [if_pos h1] at h
      exact absurd h (by simp)
    rw [if_neg h1] at h
    by_cases h2 : remaining < 0
    · rw [if_pos h2] at h
      exact absurd h (by simp)
    rw [if_neg h2] at h
    simp only [Except.ok.injEq, Prod.mk.injEq] at h
    rw [← h.2]
    exact TI_transferMultipleLoop date currency total fee toAcct names total
      [] l lots' remaining l₁ hloop

theorem TI_transferFullyLoop (date : Int) (currency : String)
    (amountRemoved fee : ℚ) (toAcct : String) (idxs : List Nat) :
    ∀ (l : Ledger) (res : List Lot) (l' : Ledger),
    Ledger.transferFullyLoop date currency amountRemoved fee toAcct idxs l =
      .ok (res, l') →
    l'.TotalInvestment = l.TotalInvestment
    ∧ l'.localCurrency = l.localCurrency := by
  induction idxs with
  | nil =>
    intro l res l' h
    unfold Ledger.transferFullyLoop at h
    simp only [Except.ok.injEq, Prod.mk.injEq] at h
    rw [← h.2]
    exact ⟨rfl, rfl⟩
  | cons i rest ih =>
    intro l res l' h
    unfold Ledger.transferFullyLoop at h
    dsimp only at h
    cases htr : l.Transfer date (l.lots.getD i default).name currency
        (l.lots.getD i default).amount
        (fee * ((l.lots.getD i default).amount / amountRemoved)) toAcct with
    | error e =>
      rw [htr] at h
      exact absurd h (by simp)
    | ok r2 =>
      obtain ⟨nl, l₂⟩ := r2
      rw [htr] at h
      dsimp only at h
      obtain ⟨hTI₂, hlc₂⟩ := TI_Transfer l date (l.lots.getD i default).name
        currency (l.lots.getD i default).amount
        (fee * ((l.lots.getD i default).amount / amountRemoved)) toAcct nl l₂
        htr
      cases hrec : Ledger.transferFullyLoop date currency amountRemoved fee
          toAcct rest l₂ with
      | error e =>
        rw [hrec] at h
        exact absurd h (by simp)
      | ok r3 =>
        obtain ⟨nls, l₃⟩ := r3
        rw [hrec] at h
        dsimp only at h
        simp only [Except.ok.injEq, Prod.mk.injEq] at h
        rw [← h.2]
        obtain ⟨hTI, hlc⟩ := ih l₂ nls l₃ hrec
        exact ⟨hTI.trans hTI₂, hlc.trans hlc₂⟩

/-- `TransferMultipleLotsFully` leaves `TotalInvestment` unchanged. -/
theorem TI_TransferMultipleLotsFully (l : Ledger) (date : Int)
    (names : List String) (currency : String) (amountRemoved fee : ℚ)
    (toAcct : String) (res : List Lot) (l' : Ledger)
    (h : l.TransferMultipleLotsFully date names currency amountRemoved fee
      toAcct = .ok (res, l')) :
    l'.TotalInvestment = l.TotalInvestment
    ∧ l'.localCurrency = l.localCurrency := by
  unfold Ledger.TransferMultipleLotsFully at h
  cases hc : l.collectLots currency names with
  | error e =>
    rw [hc] at h
    exact absurd h (by simp)
  | ok found =>
    rw [hc] at h
    dsimp only at h
    by_cases hb : |(found.map (fun p => p.2.amount)).sum - amountRemoved| >
        1 / 10 ^ 13
    · rw [if_pos hb] at h
      exact absurd h (by simp)
    · rw [if_neg hb] at h
      exact TI_transferFullyLoop date currency amountRemoved fee toAcct
        (found.map (fun p => p.1)) l res l' h

theorem TI_exchangeMultipleLoop (date : Int) (soldCurrency : String)
    (totalSell : ℚ) (lookupSold : Bool) (purchasedCurrency : String)
    (totalPurchase : ℚ) (names : List String) :
    ∀ (remS remP : ℚ) (l : Ledger) (remS' remP' : ℚ) (l' : Ledger),
    Ledger.exchangeMultipleLoop date soldCurrency totalSell lookupSold
      purchasedCurrency totalPurchase names remS remP l =
      .ok (remS', remP', l') →
    l'.TotalInvestment = l.TotalInvestment
    ∧ l'.localCurrency = l.localCurrency := by
  induction names with
  | nil =>
    intro remS remP l remS' remP' l' h
    unfold Ledger.exchangeMultipleLoop at h
    simp only [Except.ok.injEq, Prod.mk.injEq] at h
    rw [← h.2.2]
    exact ⟨rfl, rfl⟩
  | cons name rest ih =>
    intro remS remP l remS' remP' l' h
    unfold Ledger.exchangeMultipleLoop at h
    cases hfind : l.FindLotByName name soldCurrency with
    | error e =>
      rw [hfind] at h
      exact absurd h (by simp)
    | ok r =>
      obtain ⟨j, lot⟩ := r
      rw [hfind] at h
      dsimp only at h
      by_cases h1 : remS ≤ 0
      · rw [if_pos h1] at h
        exact absurd h (by simp)
      rw [if_neg h1] at h
      by_cases h2 : remP ≤ 0
      · rw [if_pos h2] at h
        exact absurd h (by simp)
      rw [if_neg h2] at h
      cases hex : l.ExchangeTaxable date lot.name soldCurrency
          (min lot.amount remS) 0 lookupSold purchasedCurrency
          (totalPurchase * (min lot.amount remS / totalSell)) with
      | error e =>
        rw [hex] at h
        exact absurd h (by simp)
      | ok r2 =>
        obtain ⟨nl, l₂⟩ := r2
        rw [hex] at h
        dsimp only at h
        obtain ⟨hTI₂, hlc₂⟩ := TI_ExchangeTaxable l date lot.name soldCurrency
          (min lot.amount remS) 0 lookupSold purchasedCurrency
          (totalPurchase * (min lot.amount remS / totalSell)) nl l₂ hex
        obtain ⟨hTI, hlc⟩ := ih _ _ _ _ _ _ h
        exact ⟨hTI.trans hTI₂, hlc.trans hlc₂⟩

/-- `ExchangeTaxableMultipleLots` leaves `TotalInvestment` unchanged. -/
theorem TI_ExchangeTaxableMultipleLots (l : Ledger) (date : Int)
    (names : List String) (soldCurrency : String) (totalSell : ℚ)
    (lookupSold : Bool) (purchasedCurrency : String) (totalPurchase : ℚ)
    (l' : Ledger)
    (h : l.ExchangeTaxableMultipleLots date names soldCurrency totalSell
      lookupSold purchasedCurrency totalPurchase = .ok l') :
    l'.TotalInvestment = l.TotalInvestment
    ∧ l'.localCurrency = l.localCurrency := by
  unfold Ledger.ExchangeTaxableMultipleLots at h
  cases hloop : Ledger.exchangeMultipleLoop date soldCurrency totalSell
      lookupSold purchasedCurrency totalPurchase names totalSell
      totalPurchase l with
  | error e =>
    rw [hloop] at h
    exact absurd h (by simp)
  | ok r =>
    obtain ⟨remS, r2⟩ := r
    obtain ⟨remP, l₁⟩ := r2
    rw [hloop] at h
    dsimp only at h
    by_cases hg : RoundPlaces remS 11 ≠ 0 ∨ RoundPlaces remP 11 ≠ 0
    · rw [if_pos hg] at h
      exact absurd h (by simp)
    · rw [if_neg hg] at h
      simp only [Except.ok.injEq] at h
      rw [← h]
      exact TI_exchangeMultipleLoop date soldCurrency totalSell lookupSold
        purchasedCurrency totalPurchase names totalSell totalPurchase l remS
        remP l₁ hloop

/-- C10 counterexample: the claim's clause that "every other operation
leaves TotalInvestment unchanged" is false — `DepositNewMoney` (an operation
other than `MergeIdenticalLots`) changes `TotalInvestment`: depositing 960
local-currency units with cost basis 1085 into a fresh USD ledger changes
the total (from 0 to 1085). -/
theorem C10_counterexample :
    ((Ledger.New "USD" []).DepositNewMoney 0 "Bitfinex" 960
        1085).TotalInvestment ≠
      (Ledger.New "USD" []).TotalInvestment := by
  intro h
  rw [(TI_Deposit (Ledger.New "USD" []) 0 "Bitfinex" 960 1085).1] at h
  linarith

/-- C10 (corrected): `TotalInvestment` sums the immutable original cost
basis of parentless reporting-currency lots.  A successful
`MergeIdenticalLots` appends a parentless lot of the merged currency and so
increases `TotalInvestment` by that lot's original cost basis exactly when
the merged currency is the reporting currency (and leaves it unchanged
otherwise); `Purchase`, `Spend`, `Transfer`, `Fee`, `ExchangeTaxable`,
`ExchangeNonTaxable` and the three batch operations leave `TotalInvestment`
unchanged; but — contrary to the claim's "every other operation" clause —
`DepositNewMoney` always increases it by the deposit's cost basis and
`Income` increases it by the recorded cost whenever the income currency is
the reporting currency. -/
theorem C10_total_investment :
    (∀ (l : Ledger) (purchaseDate : Int) (currency : String)
       (names : List String) (newLot : Lot) (l' : Ledger),
      l.MergeIdenticalLots purchaseDate currency names = .ok (newLot, l') →
      newLot.parent = none ∧ newLot.currency = currency ∧
      l'.TotalInvestment = l.TotalInvestment +
        (if currency = l.localCurrency then newLot.originalCostBasis else 0))
    ∧ (∀ (l : Ledger) (date : Int) (acct : String) (amt cb : ℚ),
      (l.DepositNewMoney date acct amt cb).TotalInvestment =
        l.TotalInvestment + cb)
    ∧ (∀ (l : Ledger) (date : Int) (acct cur : String) (amt cost : ℚ)
        (note : String),
      (l.Income date acct cur amt cost note).TotalInvestment =
        l.TotalInvestment + (if cur = l.localCurrency then cost else 0))
    ∧ (∀ (l : Ledger) (date : Int) (nm acct cur : String) (amt cost : ℚ)
        (newLot : Lot) (l' : Ledger),
      l.Purchase date nm acct cur amt cost = .ok (newLot, l') →
      l'.TotalInvestment = l.TotalInvestment)
    ∧ (∀ (l : Ledger) (date : Int) (acct nm cur : String) (amt : ℚ)
        (note : String) (value : ℚ) (l' : Ledger),
      l.Spend date acct nm cur amt note = .ok (value, l') →
      l'.TotalInvestment = l.TotalInvestment)
    ∧ (∀ (l : Ledger) (date : Int) (nm cur : String) (amt fee : ℚ)
        (toAcct : String) (newLot : Lot) (l' : Ledger),
      l.Transfer date nm cur amt fee toAcct = .ok (newLot, l') →
      l'.TotalInvestment = l.TotalInvestment)
    ∧ (∀ (l : Ledger) (date : Int) (nm cur : String) (amt : ℚ)
        (applyTo note : String) (l' : Ledger),
      l.Fee date nm cur amt applyTo note = .ok l' →
      l'.TotalInvestment = l.TotalInvestment)
    ∧ (∀ (l : Ledger) (date : Int) (nm scur : String) (samt fee : ℚ)
        (lookupSold : Bool) (pcur : String) (pamt : ℚ) (newLot : Lot)
        (l' : Ledger),
      l.ExchangeTaxable date nm scur samt fee lookupSold pcur pamt =
        .ok (newLot, l') →
      l'.TotalInvestment = l.TotalInvestment)
    ∧ (∀ (l : Ledger) (date : Int) (nm scur : String) (samt fee : ℚ)
        (pcur : String) (pamt : ℚ) (l' : Ledger),
      l.ExchangeNonTaxable date nm scur samt fee pcur pamt = .ok l' →
      l'.TotalInvestment = l.TotalInvestment)
    ∧ (∀ (l : Ledger) (date : Int) (names : List String) (currency : String)
        (total fee : ℚ) (toAcct : String) (res : List Lot) (l' : Ledger),
      l.TransferMultipleLots date names currency total fee toAcct =
        .ok (res, l') →
      l'.TotalInvestment = l.TotalInvestment)
    ∧ (∀ (l : Ledger) (date : Int) (names : List String) (currency : String)
        (amountRemoved fee : ℚ) (toAcct : String) (res : List Lot)
        (l' : Ledger),
      l.TransferMultipleLotsFully date names currency amountRemoved fee
        toAcct = .ok (res, l') →
      l'.TotalInvestment = l.TotalInvestment)
    ∧ (∀ (l : Ledger) (date : Int) (names : List String) (scur : String)
        (totalSell : ℚ) (lookupSold : Bool) (pcur : String)
        (totalPurchase : ℚ) (l' : Ledger),
      l.ExchangeTaxableMultipleLots date names scur totalSell lookupSold
        pcur totalPurchase = .ok l' →
      l'.TotalInvestment = l.TotalInvestment) := by
  refine ⟨?_, ?_, ?_, ?_, ?_, ?_, ?_, ?_, ?_, ?_, ?_, ?_⟩
  · intro l purchaseDate currency names newLot l' h
    obtain ⟨hTI, _, hp, hc⟩ := TI_Merge l purchaseDate currency names newLot
      l' h
    exact ⟨hp, hc, hTI⟩
  · intro l date acct amt cb
    exact (TI_Deposit l date acct amt cb).1
  · intro l date acct cur amt cost note
    exact (TI_Income l date acct cur amt cost note).1
  · intro l date nm acct cur amt cost newLot l' h
    exact (TI_Purchase l date nm acct cur amt cost newLot l' h).1
  · intro l date acct nm cur amt note value l' h
    exact (TI_Spend l date acct nm cur amt note value l' h).1
  · intro l date nm cur amt fee toAcct newLot l' h
    exact (TI_Transfer l date nm cur amt fee toAcct newLot l' h).1
  · intro l date nm cur amt applyTo note l' h
    exact (TI_Fee l date nm cur amt applyTo note l' h).1
  · intro l date nm scur samt fee lookupSold pcur pamt newLot l' h
    exact (TI_ExchangeTaxable l date nm scur samt fee lookupSold pcur pamt
      newLot l' h).1
  · intro l date nm scur samt fee pcur pamt l' h
    exact (TI_ExchangeNonTaxable l date nm scur samt fee pcur pamt l' h).1
  · intro l date names currency total fee toAcct res l' h
    exact (TI_TransferMultipleLots l date names currency total fee toAcct res
      l' h).1
  · intro l date names currency amountRemoved fee toAcct res l' h
    exact (TI_TransferMultipleLotsFully l date names currency amountRemoved
      fee toAcct res l' h).1
  · intro l date names scur totalSell lookupSold pcur totalPurchase l' h
    exact (TI_ExchangeTaxableMultipleLots l date names scur totalSell
      lookupSold pcur totalPurchase l' h).1

/-- C10 witness: the `Spend` clause of the corrected claim instantiated at a
concrete ledger — a zero-amount spend on a fresh USD ledger succeeds and
leaves `TotalInvestment` unchanged. -/
theorem C10_witness :
    (Ledger.New "USD" []).Spend 0 "Bitfinex" "1" "BTC" 0 "note" =
      .ok (0, Ledger.New "USD" []) ∧
    (Ledger.New "USD" []).TotalInvestment =
      (Ledger.New "USD" []).TotalInvestment := by
  refine ⟨rfl, ?_⟩
  exact C10_total_investment.2.2.2.2.1 (Ledger.New "USD" []) 0 "Bitfinex" "1"
    "BTC" 0 "note" 0 (Ledger.New "USD" []) rfl

theorem RoundPlaces_zero (n : ℕ) : RoundPlaces 0 n = 0 := by
  unfold RoundPlaces Round
  norm_num

/-- Removing a positive lot's full balance drains it to exactly zero amount
and zero cost basis, returning its entire cost basis. -/
theorem Remove_self (lot : Lot) (currency : String)
    (hc : lot.currency = currency) (ha : 0 < lot.amount) :
    lot.Remove currency lot.amount =
      .ok (lot.costBasis, { lot with costBasis := 0, amount := 0 }) := by
  unfold Lot.Remove
  rw [if_neg (by simp [hc])]
  dsimp only
  rw [div_self (ne_of_gt ha)]
  rw [if_neg (by norm_num [RoundPlaces, Round])]
  rw [if_pos (by norm_num)]
  rw [mul_one, mul_one, sub_self, sub_self]

/-- Replacing the lot at a position by one with the same name does not
disturb a successful lookup of a different name. -/
theorem FindLotByName_set_preserve (l : Ledger) (i : Nat) (x : Lot)
    (nm cur : String) (r : Nat × Lot)
    (hk : ∀ lot', l.lots[i]? = some lot' → lot'.name = x.name)
    (hx : x.name ≠ nm)
    (h : l.FindLotByName nm cur = .ok r) :
    ({ l with lots := l.lots.set i x } : Ledger).FindLotByName nm cur =
      .ok r := by
  unfold Ledger.FindLotByName Ledger.findLotIdx at h ⊢
  dsimp only
  rw [findLotRev_set_of_ne l.lots i x nm hk hx]
  exact h

theorem drainAll_length :
    ∀ (rs : List (Nat × Lot)) (lots : List Lot),
    (drainAll lots rs).length = lots.length := by
  intro rs
  induction rs with
  | nil => intro lots; rfl
  | cons p rest ih =>
    intro lots
    obtain ⟨i, lot⟩ := p
    unfold drainAll
    rw [ih, List.length_set]

theorem drainAll_getElem_of_not_mem :
    ∀ (rs : List (Nat × Lot)) (lots : List Lot) (j : Nat),
    (∀ p ∈ rs, p.1 ≠ j) →
    (drainAll lots rs)[j]? = lots[j]? := by
  intro rs
  induction rs with
  | nil => intro lots j _; rfl
  | cons p rest ih =>
    intro lots j hne
    obtain ⟨i, lot⟩ := p
    unfold drainAll
    rw [ih _ j (fun q hq => hne q (by simp [hq]))]
    exact List.getElem?_set_ne (hne (i, lot) (by simp))

/-- After draining, each resolved position holds exactly the zero-balance
residue of its lot (indices pairwise distinct). -/
theorem drainAll_get :
    ∀ (rs : List (Nat × Lot)) (lots : List Lot) (k : Nat)
      (hk : k < rs.length),
    (rs.map Prod.fst).Nodup →
    (rs.get ⟨k, hk⟩).1 < lots.length →
    (drainAll lots rs)[(rs.get ⟨k, hk⟩).1]? =
      some { (rs.get ⟨k, hk⟩).2 with costBasis := 0, amount := 0 } := by
  intro rs
  induction rs with
  | nil => intro lots k hk; exact absurd hk (by simp)
  | cons p rest ih =>
    intro lots k hk hnodup hbound
    obtain ⟨i, lot⟩ := p
    have hno : i ∉ rest.map Prod.fst ∧ (rest.map Prod.fst).Nodup := by
      rw [List.map_cons] at hnodup
      exact List.nodup_cons.mp hnodup
    cases k with
    | zero =>
      unfold drainAll
      show (drainAll (lots.set i { lot with costBasis := 0, amount := 0 })
          rest)[i]? = some { lot with costBasis := 0, amount := 0 }
      rw [drainAll_getElem_of_not_mem rest _ i
        (fun q hq hqi => hno.1 (hqi ▸ List.mem_map_of_mem Prod.fst hq))]
      exact List.getElem?_set_self hbound
    | succ k' =>
      have hk' : k' < rest.length := by simpa using hk
      unfold drainAll
      show (drainAll (lots.set i { lot with costBasis := 0, amount := 0 })
          rest)[(rest.get ⟨k', hk'⟩).1]? =
        some { (rest.get ⟨k', hk'⟩).2 with costBasis := 0, amount := 0 }
      exact ih _ k' hk' hno.2 (by rw [List.length_set]; exact hbound)

/-- Distinct lot names resolve to distinct positions in the lot log. -/
theorem resolved_fst_nodup (l : Ledger) (currency : String)
    (names : List String) (resolved : List (Nat × Lot))
    (hlen : resolved.length = names.length)
    (hres : ∀ k (hk : k < names.length) (hk' : k < resolved.length),
      l.FindLotByName (names.get ⟨k, hk⟩) currency =
        .ok (resolved.get ⟨k, hk'⟩))
    (hnodup : names.Nodup) :
    (resolved.map Prod.fst).Nodup := by
  rw [List.nodup_iff_injective_get]
  intro a b hab
  have hma : a.1 < resolved.length := by simpa using a.2
  have hmb : b.1 < resolved.length := by simpa using b.2
  have hna : a.1 < names.length := hlen ▸ hma
  have hnb : b.1 < names.length := hlen ▸ hmb
  have hab' : (resolved.get ⟨a.1, hma⟩).1 = (resolved.get ⟨b.1, hmb⟩).1 := by
    simpa [List.get_eq_getElem, List.getElem_map] using hab
  have ha := hres a.1 hna hma
  have hb := hres b.1 hnb hmb
  obtain ⟨hfla, _⟩ := FindLotByName_ok_inv l _ currency _ _ ha
  obtain ⟨hflb, _⟩ := FindLotByName_ok_inv l _ currency _ _ hb
  obtain ⟨hgeta, hnamea, _⟩ := findLotRev_some_spec l.lots _ _ _ hfla
  obtain ⟨hgetb, hnameb, _⟩ := findLotRev_some_spec l.lots _ _ _ hflb
  have hlot : (resolved.get ⟨a.1, hma⟩).2 = (resolved.get ⟨b.1, hmb⟩).2 := by
    have h1 := hgeta
    rw [hab', hgetb] at h1
    exact (Option.some.inj h1).symm
  have hnm : names.get ⟨a.1, hna⟩ = names.get ⟨b.1, hnb⟩ := by
    rw [← hnamea, ← hnameb, hlot]
  have hfin := (List.nodup_iff_injective_get.mp hnodup) hnm
  have hv : a.1 = b.1 := by
    have hvv := congrArg Fin.val hfin
    simpa using hvv
  exact Fin.ext hv

/-- The merge loop with the reference price and account fixed
(`isFirst = false`): under well-resolved, positive, distinctly named lots it
drains every remaining lot and accumulates the exact sums when all lots pass
the compatibility test, and aborts with `identityMismatch` when any lot
fails it. -/
theorem mergeLoop_tail (purchaseDate : Int) (currency : String)
    (ppu₀ : ℚ) (acct₀ : String) :
    ∀ (names : List String) (resolved : List (Nat × Lot)) (l : Ledger)
      (tA tB : ℚ),
    resolved.length = names.length →
    (∀ k (hk : k < names.length) (hk' : k < resolved.length),
      l.FindLotByName (names.get ⟨k, hk⟩) currency =
        .ok (resolved.get ⟨k, hk'⟩)) →
    (∀ p ∈ resolved, 0 < p.2.amount) →
    names.Nodup →
    ((∀ k (hk' : k < resolved.length),
        MergeCond purchaseDate ppu₀ acct₀ (resolved.get ⟨k, hk'⟩).2) →
      l.mergeLoop purchaseDate currency names false ppu₀ acct₀ tA tB =
        .ok (tA + (resolved.map (fun p => p.2.amount)).sum,
             tB + (resolved.map (fun p => p.2.costBasis)).sum, acct₀,
             { l with lots := drainAll l.lots resolved }))
    ∧ ((¬ ∀ k (hk' : k < resolved.length),
          MergeCond purchaseDate ppu₀ acct₀ (resolved.get ⟨k, hk'⟩).2) →
      l.mergeLoop purchaseDate currency names false ppu₀ acct₀ tA tB =
        .error .identityMismatch) := by
  intro names
  induction names with
  | nil =>
    intro resolved l tA tB hlen hres hpos hnodup
    have hres0 : resolved = [] := List.length_eq_zero.mp (by simpa using hlen)
    subst hres0
    constructor
    · intro _
      unfold Ledger.mergeLoop
      simp [drainAll]
    · intro hbad
      exact absurd (fun k hk' => absurd hk' (by simp)) hbad
  | cons n₀ rest ih =>
    intro resolved l tA tB hlen hres hpos hnodup
    cases resolved with
    | nil => exact absurd hlen (by simp)
    | cons p rtail =>
      obtain ⟨i₀, lot₀⟩ := p
      have hfind₀ : l.FindLotByName n₀ currency = .ok (i₀, lot₀) :=
        hres 0 (by simp) (by simp)
      obtain ⟨hfl₀, hcur₀⟩ := FindLotByName_ok_inv l n₀ currency i₀ lot₀ hfind₀
      obtain ⟨hget₀, hname₀, _⟩ := findLotRev_some_spec l.lots n₀ i₀ lot₀ hfl₀
      have hpos₀ : 0 < lot₀.amount := hpos (i₀, lot₀) (by simp)
      have hnodup' := (List.nodup_cons.mp hnodup).2
      have hn₀ := (List.nodup_cons.mp hnodup).1
      have hlen' : rtail.length = rest.length := by simpa using hlen
      have hres' : ∀ k (hk : k < rest.length) (hk' : k < rtail.length),
          ({ l with lots := l.lots.set i₀ ({ lot₀ with costBasis := 0, amount := 0 }) } : Ledger).FindLotByName
            (rest.get ⟨k, hk⟩) currency = .ok (rtail.get ⟨k, hk'⟩) := by
        intro k hk hk'
        refine FindLotByName_set_preserve l i₀ _ _ currency _
          (fun lot' hget' => ?_) ?_
          (hres (k + 1) (by simpa using hk) (by simpa using hk'))
        · rw [hget₀] at hget'
          have heq : lot₀ = lot' := by simpa using hget'
          rw [← heq]
        · show lot₀.name ≠ rest.get ⟨k, hk⟩
          rw [hname₀]
          intro hmem
          exact hn₀ (by rw [hmem]; exact List.get_mem rest k hk)
      have hpos' : ∀ p ∈ rtail, 0 < p.2.amount :=
        fun p hp => hpos p (by simp [hp])
      by_cases hc₀ : MergeCond purchaseDate ppu₀ acct₀ lot₀
      · obtain ⟨hd, hpr, hacc⟩ := hc₀
        obtain ⟨ihs, ihf⟩ := ih rtail _ (tA + lot₀.amount) (tB + lot₀.costBasis)
          hlen' hres' hpos' hnodup'
        constructor
        · intro hall
          have hall' : ∀ k (hk' : k < rtail.length),
              MergeCond purchaseDate ppu₀ acct₀ (rtail.get ⟨k, hk'⟩).2 :=
            fun k hk' => hall (k + 1) (by simpa using hk')
          unfold Ledger.mergeLoop
          rw [hfind₀]
          dsimp only
          rw [if_neg (fun hne => hne hd)]
          rw [if_neg (fun hg => hg.2 hpr)]
          rw [if_neg (fun hg => hg.2 hacc)]
          rw [Remove_self lot₀ currency hcur₀ hpos₀]
          dsimp only
          refine (ihs hall').trans ?_
          simp only [List.map_cons, List.sum_cons, drainAll, add_assoc]
        · intro hbad
          have hbad' : ¬ ∀ k (hk' : k < rtail.length),
              MergeCond purchaseDate ppu₀ acct₀ (rtail.get ⟨k, hk'⟩).2 := by
            intro hall'
            refine hbad (fun k hk' => ?_)
            cases k with
            | zero => exact ⟨hd, hpr, hacc⟩
            | succ k' => exact hall' k' (by simpa using hk')
          unfold Ledger.mergeLoop
          rw [hfind₀]
          dsimp only
          rw [if_neg (fun hne => hne hd)]
          rw [if_neg (fun hg => hg.2 hpr)]
          rw [if_neg (fun hg => hg.2 hacc)]
          rw [Remove_self lot₀ currency hcur₀ hpos₀]
          dsimp only
          exact ihf hbad'
      · constructor
        · intro hall
          exact absurd (hall 0 (by simp)) hc₀
        · intro _
          unfold Ledger.mergeLoop
          rw [hfind₀]
          dsimp only
          by_cases hd : lot₀.originalPurchaseTime = purchaseDate
          · rw [if_neg (fun hne => hne hd)]
            by_cases hpr : RoundPlaces (ppu₀ - lot₀.costBasis / lot₀.amount)
                11 = 0
            · rw [if_neg (fun hg => hg.2 hpr)]
              have hacc : acct₀ ≠ lot₀.account :=
                fun h => hc₀ ⟨hd, hpr, h⟩
              rw [if_pos ⟨by simp, hacc⟩]
            · rw [if_pos ⟨by simp, hpr⟩]
          · rw [if_pos hd]

/-- C5: with distinct names resolving (with matching currency) to lots of
positive amount, `MergeIdenticalLots` succeeds exactly when every named lot
has the requested original purchase date, a per-unit price within 11-decimal
rounding of the first lot's, and the first lot's account — and any violation
aborts with `identityMismatch`.  On success each input lot is left with
amount and cost basis exactly zero at its position, and one new parentless
lot is appended holding the exact sums of the inputs' amounts and cost
bases. -/
theorem C5_merge_identical_lots (l : Ledger) (purchaseDate : Int)
    (currency : String) (names : List String) (resolved : List (Nat × Lot))
    (hlen : resolved.length = names.length)
    (hres : ∀ k (hk : k < names.length) (hk' : k < resolved.length),
      l.FindLotByName (names.get ⟨k, hk⟩) currency =
        .ok (resolved.get ⟨k, hk'⟩))
    (hpos : ∀ p ∈ resolved, 0 < p.2.amount)
    (hnodup : names.Nodup) :
    ((∀ k (hk' : k < resolved.length),
        MergeCond purchaseDate
          (resolved.headI.2.costBasis / resolved.headI.2.amount)
          resolved.headI.2.account (resolved.get ⟨k, hk'⟩).2) →
      (l.MergeIdenticalLots purchaseDate currency names =
        .ok (mergedLot l purchaseDate currency resolved,
             { l with lots := drainAll l.lots resolved ++ [mergedLot l purchaseDate currency resolved], sequenceGenerator := l.sequenceGenerator + 1 })
      ∧ ∀ k (hk' : k < resolved.length),
          (drainAll l.lots resolved)[(resolved.get ⟨k, hk'⟩).1]? =
            some ({ (resolved.get ⟨k, hk'⟩).2 with costBasis := 0, amount := 0 })))
    ∧ ((¬ ∀ k (hk' : k < resolved.length),
          MergeCond purchaseDate
            (resolved.headI.2.costBasis / resolved.headI.2.amount)
            resolved.headI.2.account (resolved.get ⟨k, hk'⟩).2) →
      l.MergeIdenticalLots purchaseDate currency names =
        .error .identityMismatch) := by
  cases names with
  | nil =>
    have hres0 : resolved = [] := List.length_eq_zero.mp (by simpa using hlen)
    subst hres0
    constructor
    · intro _
      constructor
      · unfold Ledger.MergeIdenticalLots Ledger.mergeLoop Ledger.nameLot
        dsimp only
        simp only [mergedLot, drainAll, List.map_nil, List.sum_nil,
          List.headI_nil]
        rfl
      · intro k hk'
        exact absurd hk' (by simp)
    · intro hbad
      exact absurd (fun k hk' => absurd hk' (by simp)) hbad
  | cons n₀ rest =>
    cases resolved with
    | nil => exact absurd hlen (by simp)
    | cons p rtail =>
      obtain ⟨i₀, lot₀⟩ := p
      have hfind₀ : l.FindLotByName n₀ currency = .ok (i₀, lot₀) :=
        hres 0 (by simp) (by simp)
      obtain ⟨hfl₀, hcur₀⟩ := FindLotByName_ok_inv l n₀ currency i₀ lot₀ hfind₀
      obtain ⟨hget₀, hname₀, _⟩ := findLotRev_some_spec l.lots n₀ i₀ lot₀ hfl₀
      have hpos₀ : 0 < lot₀.amount := hpos (i₀, lot₀) (by simp)
      have hnodup' := (List.nodup_cons.mp hnodup).2
      have hn₀ := (List.nodup_cons.mp hnodup).1
      have hlen' : rtail.length = rest.length := by simpa using hlen
      have hres' : ∀ k (hk : k < rest.length) (hk' : k < rtail.length),
          ({ l with lots := l.lots.set i₀ ({ lot₀ with costBasis := 0, amount := 0 }) } : Ledger).FindLotByName
            (rest.get ⟨k, hk⟩) currency = .ok (rtail.get ⟨k, hk'⟩) := by
        intro k hk hk'
        refine FindLotByName_set_preserve l i₀ _ _ currency _
          (fun lot' hget' => ?_) ?_
          (hres (k + 1) (by simpa using hk) (by simpa using hk'))
        · rw [hget₀] at hget'
          have heq : lot₀ = lot' := by simpa using hget'
          rw [← heq]
        · show lot₀.name ≠ rest.get ⟨k, hk⟩
          rw [hname₀]
          intro hmem
          exact hn₀ (by rw [hmem]; exact List.get_mem rest k hk)
      have hpos' : ∀ p ∈ rtail, 0 < p.2.amount :=
        fun p hp => hpos p (by simp [hp])
      by_cases hd₀ : lot₀.originalPurchaseTime = purchaseDate
      · obtain ⟨ihs, ihf⟩ := mergeLoop_tail purchaseDate currency
          (lot₀.costBasis / lot₀.amount) lot₀.account rest rtail _
          (0 + lot₀.amount) (0 + lot₀.costBasis) hlen' hres' hpos' hnodup'
        constructor
        · intro hall
          have hall' : ∀ k (hk' : k < rtail.length),
              MergeCond purchaseDate (lot₀.costBasis / lot₀.amount)
                lot₀.account (rtail.get ⟨k, hk'⟩).2 :=
            fun k hk' => hall (k + 1) (by simpa using hk')
          have hwhole : l.mergeLoop purchaseDate currency (n₀ :: rest) true
              0 "" 0 0 =
              .ok (0 + lot₀.amount + (rtail.map (fun p => p.2.amount)).sum,
                   0 + lot₀.costBasis +
                     (rtail.map (fun p => p.2.costBasis)).sum,
                   lot₀.account,
                   { l with lots := drainAll (l.lots.set i₀ ({ lot₀ with costBasis := 0, amount := 0 })) rtail }) := by
            unfold Ledger.mergeLoop
            rw [hfind₀]
            dsimp only
            rw [if_neg (fun hne => hne hd₀)]
            rw [if_neg (fun hg => hg.1 rfl)]
            rw [if_neg (fun hg => hg.1 rfl)]
            rw [Remove_self lot₀ currency hcur₀ hpos₀]
            dsimp only
            exact ihs hall'
          constructor
          · unfold Ledger.MergeIdenticalLots
            rw [hwhole]
            dsimp only [Ledger.nameLot]
            simp only [mergedLot, List.map_cons, List.sum_cons, drainAll,
              zero_add, List.headI_cons, add_assoc]
          · intro k hk'
            refine drainAll_get ((i₀, lot₀) :: rtail) l.lots k hk' ?_ ?_
            · exact resolved_fst_nodup l currency (n₀ :: rest)
                ((i₀, lot₀) :: rtail) hlen hres hnodup
            · have hfk := hres k (hlen ▸ hk') hk'
              obtain ⟨hflk, _⟩ := FindLotByName_ok_inv l _ currency _ _ hfk
              obtain ⟨hgetk, _, _⟩ := findLotRev_some_spec l.lots _ _ _ hflk
              by_contra hgeb
              push_neg at hgeb
              rw [List.getElem?_eq_none hgeb] at hgetk
              exact absurd hgetk (by simp)
        · intro hbad
          have hbad' : ¬ ∀ k (hk' : k < rtail.length),
              MergeCond purchaseDate (lot₀.costBasis / lot₀.amount)
                lot₀.account (rtail.get ⟨k, hk'⟩).2 := by
            intro hall'
            refine hbad (fun k hk' => ?_)
            cases k with
            | zero =>
              refine ⟨hd₀, ?_, rfl⟩
              show RoundPlaces
                (lot₀.costBasis / lot₀.amount -
                  lot₀.costBasis / lot₀.amount) 11 = 0
              rw [sub_self]
              exact RoundPlaces_zero 11
            | succ k' => exact hall' k' (by simpa using hk')
          have hwholeerr : l.mergeLoop purchaseDate currency (n₀ :: rest)
              true 0 "" 0 0 = .error .identityMismatch := by
            unfold Ledger.mergeLoop
            rw [hfind₀]
            dsimp only
            rw [if_neg (fun hne => hne hd₀)]
            rw [if_neg (fun hg => hg.1 rfl)]
            rw [if_neg (fun hg => hg.1 rfl)]
            rw [Remove_self lot₀ currency hcur₀ hpos₀]
            dsimp only
            exact ihf hbad'
          unfold Ledger.MergeIdenticalLots
          rw [hwholeerr]
      · constructor
        · intro hall
          exact absurd (hall 0 (by simp)).1 hd₀
        · intro _
          have hwholeerr : l.mergeLoop purchaseDate currency (n₀ :: rest)
              true 0 "" 0 0 = .error .identityMismatch := by
            unfold Ledger.mergeLoop
            rw [hfind₀]
            dsimp only
            rw [if_pos hd₀]
          unfold Ledger.MergeIdenticalLots
          rw [hwholeerr]

/-- C5 witness: merging two BTC lots with identical date (5), per-unit price
(50) and account succeeds, drains the first input to zero at its position,
and appends the summed parentless lot. -/
theorem C5_witness :
    (c5L.MergeIdenticalLots 5 "BTC" ["1", "2"] =
      .ok (mergedLot c5L 5 "BTC" [(0, c5lotA), (1, c5lotB)],
           { c5L with lots := drainAll c5L.lots [(0, c5lotA), (1, c5lotB)] ++ [mergedLot c5L 5 "BTC" [(0, c5lotA), (1, c5lotB)]], sequenceGenerator := c5L.sequenceGenerator + 1 }))
    ∧ (drainAll c5L.lots [(0, c5lotA), (1, c5lotB)])[0]? =
        some ({ c5lotA with costBasis := 0, amount := 0 }) := by
  have hres : ∀ k (hk : k < (["1", "2"] : List String).length)
      (hk' : k < ([(0, c5lotA), (1, c5lotB)] : List (Nat × Lot)).length),
      c5L.FindLotByName ((["1", "2"] : List String).get ⟨k, hk⟩) "BTC" =
        .ok (([(0, c5lotA), (1, c5lotB)] : List (Nat × Lot)).get ⟨k, hk'⟩) := by
    intro k hk hk'
    cases k with
    | zero => rfl
    | succ k1 =>
      cases k1 with
      | zero => rfl
      | succ k2 =>
        simp at hk
        omega
  have hposw : ∀ p ∈ ([(0, c5lotA), (1, c5lotB)] : List (Nat × Lot)),
      0 < p.2.amount := by
    intro p hp
    rcases List.mem_cons.mp hp with h | hp2
    · rw [h]
      show (0 : ℚ) < c5lotA.amount
      norm_num [c5lotA]
    · rw [List.mem_singleton.mp hp2]
      show (0 : ℚ) < c5lotB.amount
      norm_num [c5lotB]
  have hall : ∀ k
      (hk' : k < ([(0, c5lotA), (1, c5lotB)] : List (Nat × Lot)).length),
      MergeCond 5
        (([(0, c5lotA), (1, c5lotB)] : List (Nat × Lot)).headI.2.costBasis /
          ([(0, c5lotA), (1, c5lotB)] : List (Nat × Lot)).headI.2.amount)
        (([(0, c5lotA), (1, c5lotB)] : List (Nat × Lot)).headI.2.account)
        (([(0, c5lotA), (1, c5lotB)] : List (Nat × Lot)).get ⟨k, hk'⟩).2 := by
    intro k hk'
    cases k with
    | zero =>
      refine ⟨rfl, ?_, rfl⟩
      show RoundPlaces (c5lotA.costBasis / c5lotA.amount -
        c5lotA.costBasis / c5lotA.amount) 11 = 0
      rw [sub_self]
      exact RoundPlaces_zero 11
    | succ k1 =>
      cases k1 with
      | zero =>
        refine ⟨rfl, ?_, rfl⟩
        show RoundPlaces (c5lotA.costBasis / c5lotA.amount -
          c5lotB.costBasis / c5lotB.amount) 11 = 0
        norm_num [c5lotA, c5lotB, RoundPlaces, Round]
      | succ k2 =>
        simp at hk'
        omega
  have h := (C5_merge_identical_lots c5L 5 "BTC" ["1", "2"]
    [(0, c5lotA), (1, c5lotB)] rfl hres hposw (by decide)).1 hall
  exact ⟨h.1, h.2 0 (by decide)⟩

end CostBasis
